import Mathlib

/-!
Shallow embedding of the cuckoo-hash-set repository (cuckooHash.cpp,
striped2.cpp, stripedCuckooHash.cpp, tm_cuckoo.cpp) and proofs about it.

Elements are modelled as `Nat` (the benchmarks instantiate `T = int` and
`std::hash<int>` is injective on the used range); the hash function
`std::hash<T>` is an arbitrary parameter `hasher : Nat → Nat`.  The
pseudo-random generator `rng` is modelled as a draw stream `stream : Nat → Nat`
together with a cursor `pos`: every call that consumes randomness (reseeding in
`resize`, key draws in `populate`) reads `stream pos` and advances `pos`.
Locks and the resize barrier have no effect on the sequential state and are
modelled only where a claim is about them (the acquisition-order functions).
-/

/-- State of `CuckooHashSet` (cuckooHash.cpp).  The same state type also
serves `StripedCuckooHashSet` of striped2.cpp, whose tables, seeds and size
fields are identical. -/
structure CuckooState where
  limit : Nat
  n : Nat
  table0 : List (Option Nat)
  table1 : List (Option Nat)
  s0 : Nat
  s1 : Nat
  stream : Nat → Nat
  pos : Nat

variable (hasher : Nat → Nat)

/-- `hash0` of cuckooHash.cpp line 29 and striped2.cpp line 29:
`(hasher(x) ^ seed) % table_size`. -/
def hash0B (s : CuckooState) (x : Nat) : Nat := (hasher x ^^^ s.s0) % s.n

/-- `hash1` of cuckooHash.cpp line 34 and striped2.cpp line 33:
`(hasher(x) ^ seed1) % table_size`. -/
def hash1B (s : CuckooState) (x : Nat) : Nat := (hasher x ^^^ s.s1) % s.n

/-- `contains` of cuckooHash.cpp line 103 (= `contains_internal` of
striped2.cpp line 117). -/
def containsB (s : CuckooState) (x : Nat) : Bool :=
  (s.table0.getD (hash0B hasher s x) none == some x) ||
  (s.table1.getD (hash1B hasher s x) none == some x)

/-- `swap` of cuckooHash.cpp line 39 / striped2.cpp line 37: store `x` at
`table{ti}[p]` and return the previous slot content. -/
def swapB (s : CuckooState) (ti : Nat) (p : Nat) (x : Nat) :
    Option Nat × CuckooState :=
  if ti = 0 then
    (s.table0.getD p none, { s with table0 := s.table0.set p (some x) })
  else
    (s.table1.getD p none, { s with table1 := s.table1.set p (some x) })

/-- The displacement loop of `add` (cuckooHash.cpp lines 113-125, identically
striped2.cpp lines 149-163): up to `k` rounds of evicting into `table0` then
`table1`; result `(none, s)` means placed, `(some c, s)` means the loop ended
with element `c` still in hand. -/
def addLoopB : Nat → CuckooState → Nat → Option Nat × CuckooState
  | 0, s, x => (some x, s)
  | k+1, s, x =>
    let q := swapB s 0 (hash0B hasher s x) x
    match q.1 with
    | none => (none, q.2)
    | some y =>
      let r := swapB q.2 1 (hash1B hasher q.2 y) y
      match r.1 with
      | none => (none, r.2)
      | some z => addLoopB k r.2 z

/-- The non-reinsertion part of `resize` (cuckooHash.cpp lines 53-73,
striped2.cpp lines 75-92): double `table_size`, save the old tables, allocate
empty tables, and draw two fresh seeds from the rng.  Returns the cleared
state together with the list of saved elements in reinsertion order
(old `table0` front to back, then old `table1`). -/
def resizeCore (s : CuckooState) : CuckooState × List Nat :=
  ({ s with
      n := 2 * s.n
      table0 := List.replicate (2 * s.n) none
      table1 := List.replicate (2 * s.n) none
      s0 := s.stream s.pos
      s1 := s.stream (s.pos + 1)
      pos := s.pos + 2 },
   s.table0.filterMap id ++ s.table1.filterMap id)

/-- The reinsertion loops of `resize` (cuckooHash.cpp lines 75-86,
striped2.cpp lines 94-98), parameterised by the insertion routine used
(`add` resp. `add_internal`). -/
def reinsertWith (adder : CuckooState → Nat → Option (Bool × CuckooState)) :
    List Nat → CuckooState → Option CuckooState
  | [], s => some s
  | x :: xs, s =>
    match adder s x with
    | none => none
    | some p => reinsertWith adder xs p.2

/-- `add` of cuckooHash.cpp lines 108-131 (= `add_internal` of striped2.cpp
lines 102-115, which has the same text): duplicate check, displacement loop,
and on `LIMIT` exhaustion `resize(); return add(loop_x);` — the *carried*
element is retried.  `fuel` bounds the depth of resize recursion; `none` means
the recursion did not terminate within `fuel`. -/
def addFuel : Nat → CuckooState → Nat → Option (Bool × CuckooState)
  | 0, _, _ => none
  | f+1, s, x =>
    if containsB hasher s x then some (false, s)
    else
      match addLoopB hasher s.limit s x with
      | (none, s2) => some (true, s2)
      | (some carry, s2) =>
        let rc := resizeCore s2
        match reinsertWith (addFuel f) rc.2 rc.1 with
        | none => none
        | some s3 => addFuel f s3 carry

/-- `resize` of cuckooHash.cpp lines 53-87 as a standalone function. -/
def resizeFuel (f : Nat) (s : CuckooState) : Option CuckooState :=
  reinsertWith (addFuel hasher f) (resizeCore s).2 (resizeCore s).1

/-- `add` of striped2.cpp lines 143-173.  It differs from cuckooHash.cpp in
the failure branch (lines 164-168): the displaced carry element is *dropped*
and the call retries `add(x)` (striped2.cpp's `resize` reinserts through
`add_internal`, modelled by `addFuel`). -/
def addS2Fuel : Nat → CuckooState → Nat → Option (Bool × CuckooState)
  | 0, _, _ => none
  | f+1, s, x =>
    if containsB hasher s x then some (false, s)
    else
      match addLoopB hasher s.limit s x with
      | (none, s2) => some (true, s2)
      | (some _, s2) =>
        let rc := resizeCore s2
        match reinsertWith (addFuel hasher f) rc.2 rc.1 with
        | none => none
        | some s3 => addS2Fuel f s3 x

/-- `remove` of cuckooHash.cpp lines 133-146 (the same table logic as
striped2.cpp lines 175-190): try `table0[hash0(x)]` first, then
`table1[hash1(x)]`. -/
def removeB (s : CuckooState) (x : Nat) : Bool × CuckooState :=
  if s.table0.getD (hash0B hasher s x) none = some x then
    (true, { s with table0 := s.table0.set (hash0B hasher s x) none })
  else if s.table1.getD (hash1B hasher s x) none = some x then
    (true, { s with table1 := s.table1.set (hash1B hasher s x) none })
  else (false, s)

/-- `size` of cuckooHash.cpp lines 148-153: number of occupied slots. -/
def sizeB (s : CuckooState) : Nat :=
  (s.table0.filterMap id).length + (s.table1.filterMap id).length

/-- The multiset of elements stored in the two tables. -/
def melemsB (s : CuckooState) : Multiset Nat :=
  (s.table0.filterMap id : Multiset Nat) + (s.table1.filterMap id : Multiset Nat)

/-- The retry loop `while(!(add(dist(rng)))){}` of `populate`
(cuckooHash.cpp line 158), with `t` bounding the number of draws. -/
def popTryB : Nat → Nat → CuckooState → Option CuckooState
  | _, 0, _ => none
  | f, t+1, s =>
    let key := s.stream s.pos
    let s1 := { s with pos := s.pos + 1 }
    match addFuel hasher f s1 key with
    | none => none
    | some (true, s2) => some s2
    | some (false, s2) => popTryB f t s2

/-- `populate` of cuckooHash.cpp lines 155-160: `k` rounds, each drawing keys
until one is accepted by `add`. -/
def populateB (f : Nat) : Nat → CuckooState → Option CuckooState
  | 0, s => some s
  | k+1, s =>
    match popTryB hasher f f s with
    | none => none
    | some s2 => populateB f k s2

/-- `acquire` of striped2.cpp lines 49-62 as the ordered list of
`(table_id, bucket_index)` lock identifiers it takes. -/
def acquireOrderS2 (s : CuckooState) (x : Nat) : List (Nat × Nat) :=
  let h0 := hash0B hasher s x
  let h1 := hash1B hasher s x
  if h0 < h1 then [(0, h0), (1, h1)]
  else if h1 < h0 then [(1, h1), (0, h0)]
  else [(0, h0)]

/-- Modelled from the spec (section 4.3): the canonical lock-acquisition order
on the two bucket locks of an element with home indices `i0`, `i1`. -/
def canonicalOrder (i0 i1 : Nat) : List (Nat × Nat) :=
  if i0 < i1 then [(0, i0), (1, i1)]
  else if i1 < i0 then [(1, i1), (0, i0)]
  else [(0, i0)]

/-- `hash0` of tm_cuckoo.cpp lines 32-35: `hasher(x) % sz` — the seed is not
used. -/
def tmHash0 (sz : Nat) (x : Nat) : Nat := hasher x % sz

/-- `hash1` of tm_cuckoo.cpp lines 36-39: `(hasher(x) ^ seed1) % sz`. -/
def tmHash1 (seed1 sz : Nat) (x : Nat) : Nat := (hasher x ^^^ seed1) % sz

/-- Modelled from the spec (section 4.1): `h0(x) = (hash(x) XOR s0) mod N`. -/
def specHash0 (s0 n x : Nat) : Nat := (hasher x ^^^ s0) % n

/-- State of `StripedCuckooHashSet` from stripedCuckooHash.cpp (probe-set
variant): each bucket is an ordered list of at most `PROBE_SIZE` elements. -/
structure StripedState where
  limit : Nat
  n : Nat
  probeSize : Nat
  threshold : Nat
  table0 : List (List Nat)
  table1 : List (List Nat)
  s0 : Nat
  s1 : Nat
  stream : Nat → Nat
  pos : Nat

/-- `hash0` of stripedCuckooHash.cpp line 38. -/
def hash0P (s : StripedState) (x : Nat) : Nat := (hasher x ^^^ s.s0) % s.n

/-- `hash1` of stripedCuckooHash.cpp line 42. -/
def hash1P (s : StripedState) (x : Nat) : Nat := (hasher x ^^^ s.s1) % s.n

/-- The probe set `table{ti}[i]`. -/
def bucketP (s : StripedState) (ti : Nat) (i : Nat) : List Nat :=
  if ti = 0 then s.table0.getD i [] else s.table1.getD i []

/-- Replace the probe set `table{ti}[i]` by `l`. -/
def setBucketP (s : StripedState) (ti : Nat) (i : Nat) (l : List Nat) :
    StripedState :=
  if ti = 0 then { s with table0 := s.table0.set i l }
  else { s with table1 := s.table1.set i l }

/-- `present` of stripedCuckooHash.cpp lines 143-153: is `x` in either of its
two probe sets. -/
def presentP (s : StripedState) (x : Nat) : Bool :=
  (bucketP s 0 (hash0P hasher s x)).contains x ||
  (bucketP s 1 (hash1P hasher s x)).contains x

/-- `contains` of stripedCuckooHash.cpp lines 239-249 (barrier and bucket
locks have no sequential state effect). -/
def containsP (s : StripedState) (x : Nat) : Bool := presentP hasher s x

/-- `add_internal` of stripedCuckooHash.cpp lines 109-141: threshold-only
cascade with *no* duplicate check; returns `false` (without modifying the
tables) when both target probe sets hold at least `THRESHOLD` elements. -/
def addInternalP (s : StripedState) (x : Nat) : Bool × StripedState :=
  let h0 := hash0P hasher s x
  let h1 := hash1P hasher s x
  let set0 := bucketP s 0 h0
  let set1 := bucketP s 1 h1
  if set0.length < s.threshold then (true, setBucketP s 0 h0 (set0 ++ [x]))
  else if set1.length < s.threshold then (true, setBucketP s 1 h1 (set1 ++ [x]))
  else (false, s)

/-- `remove` of stripedCuckooHash.cpp lines 298-326: erase the first
occurrence of `x` from `table0[hash0(x)]`, else from `table1[hash1(x)]`. -/
def removeP (s : StripedState) (x : Nat) : Bool × StripedState :=
  let h0 := hash0P hasher s x
  let h1 := hash1P hasher s x
  let set0 := bucketP s 0 h0
  if x ∈ set0 then (true, setBucketP s 0 h0 (set0.erase x))
  else
    let set1 := bucketP s 1 h1
    if x ∈ set1 then (true, setBucketP s 1 h1 (set1.erase x))
    else (false, s)

/-- `size` of stripedCuckooHash.cpp lines 328-333: total number of stored
elements (duplicates counted). -/
def sizeP (s : StripedState) : Nat :=
  (s.table0.map List.length).sum + (s.table1.map List.length).sum

/-- The multiset of elements stored in the two tables. -/
def melemsP (s : StripedState) : Multiset Nat :=
  (s.table0.flatten : Multiset Nat) + (s.table1.flatten : Multiset Nat)

/-- The `for (round = 0; round < LIMIT; ...)` loop of `relocate`
(stripedCuckooHash.cpp lines 160-218).  Arguments: remaining rounds, current
source table id `i`, current source index `hi`. -/
def relocateGo : Nat → Nat → Nat → StripedState → Bool × StripedState
  | 0, _, _, s => (false, s)
  | r+1, i, hi, s =>
    let iSet := bucketP s i hi
    if iSet.length < s.threshold then (true, s)
    else
      let y := iSet.headD 0
      let j := 1 - i
      let hj := if i = 0 then hash1P hasher s y else hash0P hasher s y
      let jSet := bucketP s j hj
      if y ∈ iSet then
        let s1 := setBucketP s i hi (iSet.erase y)
        if jSet.length < s.threshold then
          (true, setBucketP s1 j hj (jSet ++ [y]))
        else if jSet.length < s.probeSize then
          relocateGo r j hj (setBucketP s1 j hj (jSet ++ [y]))
        else
          (false, setBucketP s i hi (iSet.erase y ++ [y]))
      else
        if s.threshold ≤ iSet.length then relocateGo r i hi s
        else (true, s)

/-- `relocate` of stripedCuckooHash.cpp lines 155-221. -/
def relocateP (s : StripedState) (i hi : Nat) : Bool × StripedState :=
  relocateGo hasher s.limit i hi s

/-- `resize` of stripedCuckooHash.cpp lines 59-107: double `table_size`,
allocate empty tables, draw two fresh seeds, then reinsert the saved elements
through `add_internal`, *discarding* its boolean result (lines 90-96). -/
def reinsertIntP : List Nat → StripedState → StripedState
  | [], s => s
  | x :: xs, s => reinsertIntP xs (addInternalP hasher s x).2

/-- The cleared state and saved-element list of `resize`
(stripedCuckooHash.cpp lines 73-89). -/
def resizeCoreP (s : StripedState) : StripedState × List Nat :=
  ({ s with
      n := 2 * s.n
      table0 := List.replicate (2 * s.n) []
      table1 := List.replicate (2 * s.n) []
      s0 := s.stream s.pos
      s1 := s.stream (s.pos + 1)
      pos := s.pos + 2 },
   s.table0.flatten ++ s.table1.flatten)

/-- `resize` of stripedCuckooHash.cpp lines 59-107 (the `table_size !=
old_capacity` re-check is vacuous sequentially, since `old_capacity` is read
from the same state). -/
def resizeP (s : StripedState) : StripedState :=
  reinsertIntP hasher (resizeCoreP s).2 (resizeCoreP s).1

/-- Outcome of the locked section of `add` (stripedCuckooHash.cpp lines
253-280): `i`/`h` record the bucket needing relocation (`i != -1` in the
source), `mustResize` the both-full case. -/
inductive AddOutcome where
  | presentAlready
  | placed
  | needsReloc (i : Nat) (h : Nat)
  | mustResize
deriving DecidableEq

/-- The locked section of `add` (stripedCuckooHash.cpp lines 253-280): the
duplicate check followed by the THRESHOLD / PROBE_SIZE cascade. -/
def addLockedP (s : StripedState) (x : Nat) : AddOutcome × StripedState :=
  let h0 := hash0P hasher s x
  let h1 := hash1P hasher s x
  if presentP hasher s x then (.presentAlready, s)
  else
    let set0 := bucketP s 0 h0
    let set1 := bucketP s 1 h1
    if set0.length < s.threshold then
      (.placed, setBucketP s 0 h0 (set0 ++ [x]))
    else if set1.length < s.threshold then
      (.placed, setBucketP s 1 h1 (set1 ++ [x]))
    else if set0.length < s.probeSize then
      (.needsReloc 0 h0, setBucketP s 0 h0 (set0 ++ [x]))
    else if set1.length < s.probeSize then
      (.needsReloc 1 h1, setBucketP s 1 h1 (set1 ++ [x]))
    else (.mustResize, s)

/-- `add` of stripedCuckooHash.cpp lines 251-296: the locked cascade, then
resize / relocation handling with recursive retry (`fuel` bounds the
recursion depth). -/
def addPFuel : Nat → StripedState → Nat → Option (Bool × StripedState)
  | 0, _, _ => none
  | f+1, s, x =>
    match addLockedP hasher s x with
    | (.presentAlready, s1) => some (false, s1)
    | (.placed, s1) => some (true, s1)
    | (.mustResize, s1) => addPFuel f (resizeP hasher s1) x
    | (.needsReloc i h, s1) =>
      let r := relocateP hasher s1 i h
      if r.1 then some (true, r.2)
      else addPFuel f (resizeP hasher r.2) x

/-- The retry loop `while (!add_internal(dist(rng))) {}` of `populate`
(stripedCuckooHash.cpp line 338). -/
def popTryP : Nat → StripedState → Option StripedState
  | 0, _ => none
  | t+1, s =>
    let key := s.stream s.pos
    let s1 := { s with pos := s.pos + 1 }
    match addInternalP hasher s1 key with
    | (true, s2) => some s2
    | (false, _) => popTryP t s1

/-- `populate` of stripedCuckooHash.cpp lines 335-339: `k` accepted
insertions through `add_internal` (note: *not* through `add`, so there is no
duplicate check). -/
def populateP (t : Nat) : Nat → StripedState → Option StripedState
  | 0, s => some s
  | k+1, s =>
    match popTryP hasher t s with
    | none => none
    | some s2 => populateP t k s2

/-- `acquire` of stripedCuckooHash.cpp lines 47-50 as the ordered list of
`(table_id, bucket_index)` lock identifiers it takes: always `locks0[hash0]`
first, then `locks1[hash1]`, with no comparison of the two indices. -/
def acquireOrderP (s : StripedState) (x : Nat) : List (Nat × Nat) :=
  [(0, hash0P hasher s x), (1, hash1P hasher s x)]

/-- One client operation of the striped probe-set set, including the internal
relocation and resize steps named by the spec. -/
inductive SOp where
  | addOp (x : Nat)
  | removeOp (x : Nat)
  | containsOp (x : Nat)
  | relocOp (i h : Nat)
  | resizeOp

/-- Apply one operation (fuel `f` bounds `add`'s resize recursion). -/
def applyOp (f : Nat) (s : StripedState) : SOp → Option StripedState
  | .addOp x => (addPFuel hasher f s x).map Prod.snd
  | .removeOp x => some (removeP hasher s x).2
  | .containsOp _ => some s
  | .relocOp i h => some (relocateP hasher s i h).2
  | .resizeOp => some (resizeP hasher s)

/-- Run a sequence of operations. -/
def runOps (f : Nat) : List SOp → StripedState → Option StripedState
  | [], s => some s
  | op :: ops, s =>
    match applyOp hasher f s op with
    | none => none
    | some s2 => runOps f ops s2

/-- Invariant: every element of the baseline tables sits in the bucket its
current hash assigns to it (`table0[i]` holds only elements with
`hash0 e = i`, and likewise for `table1`). -/
def HomedB (s : CuckooState) : Prop :=
  (∀ i e, s.table0.getD i none = some e → hash0B hasher s e = i) ∧
  (∀ i e, s.table1.getD i none = some e → hash1B hasher s e = i)

/-- Executable check for `HomedB`. -/
def homedB (s : CuckooState) : Bool :=
  ((List.range s.table0.length).all fun i =>
    (s.table0.getD i none).all fun e => hash0B hasher s e == i) &&
  ((List.range s.table1.length).all fun i =>
    (s.table1.getD i none).all fun e => hash1B hasher s e == i)

/-- Well-formedness of a baseline state: positive capacity, tables of length
`table_size`, every element homed, and no duplicate elements. -/
def WfB (s : CuckooState) : Prop :=
  0 < s.n ∧ s.table0.length = s.n ∧ s.table1.length = s.n ∧
  HomedB hasher s ∧ (melemsB s).Nodup

/-- Executable check for `WfB`. -/
def wfCheckB (s : CuckooState) : Bool :=
  decide (0 < s.n) && decide (s.table0.length = s.n) &&
  decide (s.table1.length = s.n) && homedB hasher s &&
  decide (melemsB s).Nodup

/-- Well-formedness of a probe-set state: positive capacity and tables of
length `table_size`. -/
def WfP (s : StripedState) : Prop :=
  0 < s.n ∧ s.table0.length = s.n ∧ s.table1.length = s.n

/-- The probe-set bound invariant of the spec: every bucket of both tables
holds at most `PROBE_SIZE` elements. -/
def BoundedP (s : StripedState) : Prop :=
  (∀ b ∈ s.table0, b.length ≤ s.probeSize) ∧
  (∀ b ∈ s.table1, b.length ≤ s.probeSize)

/-- Constructor constraint `THRESHOLD ≤ PROBE_SIZE` (the spec requires
`THRESHOLD < PROBE_SIZE`; only `≤` is needed for the bound invariant). -/
def ParamsP (s : StripedState) : Prop := s.threshold ≤ s.probeSize

/-- The identity hash: `std::hash<int>` on the benchmark's key range. -/
def idHash : Nat → Nat := fun a => a

/-- A reachable striped2.cpp state (`new(1, 4)` then `add 0; add 1`, giving
`table0 = [1]`, `table1 = [0]`) used to exhibit the lost-carry bug of its
`add`. -/
def exAddS2 : CuckooState :=
  { limit := 4, n := 1, table0 := [some 1], table1 := [some 0],
    s0 := 0, s1 := 0, stream := fun _ => 0, pos := 0 }

/-- A probe-set table state (capacity 1, `PROBE_SIZE = 4`, `THRESHOLD = 2`,
five elements that keep colliding under the fresh zero seeds) on which
`resize` drops an element. -/
def exResizeP : StripedState :=
  { limit := 10, n := 1, probeSize := 4, threshold := 2,
    table0 := [[0, 2, 4]], table1 := [[6, 8]],
    s0 := 0, s1 := 0, stream := fun _ => 0, pos := 0 }

/-- An empty probe-set state whose rng always draws the key 5, exhibiting the
duplicate insertions of `populate`. -/
def exPopP : StripedState :=
  { limit := 10, n := 1, probeSize := 4, threshold := 2,
    table0 := [[]], table1 := [[]],
    s0 := 0, s1 := 0, stream := fun _ => 5, pos := 0 }

/-- A probe-set state in which the element 1 has `hash0 = 1 > 0 = hash1`,
exhibiting that `acquire` ignores the canonical order. -/
def exAcq : StripedState :=
  { limit := 10, n := 2, probeSize := 4, threshold := 2,
    table0 := [[], []], table1 := [[], []],
    s0 := 0, s1 := 3, stream := fun _ => 0, pos := 0 }

/-- An empty baseline state whose rng draws 0, 1, 2, … . -/
def exPopB : CuckooState :=
  { limit := 2, n := 1, table0 := [none], table1 := [none],
    s0 := 0, s1 := 0, stream := fun i => i, pos := 0 }

/-- A baseline state holding the single element 5. -/
def exRemB : CuckooState :=
  { limit := 2, n := 1, table0 := [some 5], table1 := [none],
    s0 := 0, s1 := 0, stream := fun _ => 0, pos := 0 }

/-- A probe-set state holding the single element 7. -/
def exRemP : StripedState :=
  { limit := 10, n := 1, probeSize := 4, threshold := 2,
    table0 := [[7]], table1 := [[]],
    s0 := 0, s1 := 0, stream := fun _ => 0, pos := 0 }

/-- A probe-set state with an over-threshold source bucket and a full
destination bucket (THRESHOLD 1, PROBE_SIZE 2). -/
def exReloc : StripedState :=
  { limit := 10, n := 1, probeSize := 2, threshold := 1,
    table0 := [[7, 9]], table1 := [[3, 4]],
    s0 := 0, s1 := 0, stream := fun _ => 0, pos := 0 }

def SameShapeB (s s' : CuckooState) : Prop :=
  s'.limit = s.limit ∧ s'.n = s.n ∧ s'.s0 = s.s0 ∧ s'.s1 = s.s1 ∧
  s'.stream = s.stream ∧ s'.pos = s.pos ∧
  s'.table0.length = s.table0.length ∧ s'.table1.length = s.table1.length

def AddSpecHolds (f : Nat) : Prop :=
  ∀ s x b s', WfB hasher s → addFuel hasher f s x = some (b, s') →
    WfB hasher s' ∧ (b = true ↔ x ∉ melemsB s) ∧
    melemsB s' = (if b = true then x ::ₘ melemsB s else melemsB s) ∧
    (b = false → s' = s)

instance (s : StripedState) : Decidable (BoundedP s) :=
  inferInstanceAs (Decidable ((∀ b ∈ s.table0, b.length ≤ s.probeSize) ∧
    (∀ b ∈ s.table1, b.length ≤ s.probeSize)))

instance (s : StripedState) : Decidable (WfP s) :=
  inferInstanceAs (Decidable (0 < s.n ∧ s.table0.length = s.n ∧
    s.table1.length = s.n))

instance (s : StripedState) : Decidable (ParamsP s) :=
  inferInstanceAs (Decidable (s.threshold ≤ s.probeSize))

def opsW : List SOp :=
  [.addOp 3, .addOp 3, .removeOp 1, .addOp 5, .resizeOp, .relocOp 0 0,
   .containsOp 2]

theorem getD_set_self {α : Type} (t : List α) (p : Nat) (v d : α)
    (h : p < t.length) : (t.set p v).getD p d = v := by
  simp [List.getD, List.getElem?_set_self, h]

theorem getD_set_ne {α : Type} (t : List α) {p i : Nat} (v d : α)
    (h : i ≠ p) : (t.set p v).getD i d = t.getD i d := by
  simp [List.getD, List.getElem?_set_ne (Ne.symm h)]

theorem getD_mem_or {α : Type} (t : List α) (i : Nat) (d : α) :
    t.getD i d ∈ t ∨ t.getD i d = d := by
  rcases Nat.lt_or_ge i t.length with h | h
  · left
    rw [List.getD_eq_getElem t d h]
    exact List.getElem_mem h
  · right
    exact List.getD_eq_default t d h

theorem coe_append (l1 l2 : List Nat) :
    ((l1 ++ l2 : List Nat) : Multiset Nat) = (l1 : Multiset Nat) + (l2 : Multiset Nat) := rfl

theorem filterMap_set_opt (t : List (Option Nat)) (p : Nat) (v : Option Nat)
    (h : p < t.length) :
    (((t.set p v).filterMap id : List Nat) : Multiset Nat)
        + ((t.getD p none).toList : Multiset Nat)
      = (v.toList : Multiset Nat) + ((t.filterMap id : List Nat) : Multiset Nat) := by
  induction t generalizing p with
  | nil => simp at h
  | cons a t ih =>
    cases p with
    | zero =>
      cases a <;> cases v <;>
        simp [List.filterMap_cons, ← Multiset.cons_coe, ← Multiset.singleton_add,
          add_comm, add_left_comm, add_assoc]
    | succ p =>
      have hp : p < t.length := Nat.lt_of_succ_lt_succ (by simpa using h)
      have H := ih p hp
      cases a with
      | none => simpa [List.filterMap_cons] using H
      | some c =>
        simp only [List.set, List.filterMap_cons, id_eq, List.getD_cons_succ,
          ← Multiset.cons_coe, Multiset.cons_add]
        rw [H]
        simp only [← Multiset.singleton_add]
        abel

theorem flatten_set_list (t : List (List Nat)) (p : Nat) (l : List Nat)
    (h : p < t.length) :
    (((t.set p l).flatten : List Nat) : Multiset Nat)
        + ((t.getD p []) : Multiset Nat)
      = (l : Multiset Nat) + ((t.flatten : List Nat) : Multiset Nat) := by
  induction t generalizing p with
  | nil => simp at h
  | cons a t ih =>
    cases p with
    | zero =>
      simp only [List.set, List.flatten_cons, List.getD_cons_zero, coe_append]
      abel
    | succ p =>
      have hp : p < t.length := Nat.lt_of_succ_lt_succ (by simpa using h)
      have H := ih p hp
      simp only [List.set, List.flatten_cons, List.getD_cons_succ, coe_append]
      rw [add_comm ((a : List Nat) : Multiset Nat), add_assoc,
        add_comm ((a : List Nat) : Multiset Nat), ← add_assoc, H]
      abel

theorem hashB_lt (s : CuckooState) (x : Nat) (hn : 0 < s.n) :
    hash0B hasher s x < s.n ∧ hash1B hasher s x < s.n :=
  ⟨Nat.mod_lt _ hn, Nat.mod_lt _ hn⟩

theorem homed_set0 (s : CuckooState) (x : Nat) (hh : HomedB hasher s) :
    HomedB hasher { s with table0 := s.table0.set (hash0B hasher s x) (some x) } := by
  obtain ⟨h0, h1⟩ := hh
  constructor
  · intro i e he
    by_cases hip : i = hash0B hasher s x
    · subst hip
      rcases Nat.lt_or_ge (hash0B hasher s x) s.table0.length with hl | hl
      · rw [show ({ s with table0 := s.table0.set (hash0B hasher s x) (some x) } :
            CuckooState).table0 = s.table0.set (hash0B hasher s x) (some x) from rfl,
          getD_set_self _ _ _ _ hl] at he
        cases he
        rfl
      · rw [show ({ s with table0 := s.table0.set (hash0B hasher s x) (some x) } :
            CuckooState).table0 = s.table0.set (hash0B hasher s x) (some x) from rfl,
          List.set_eq_of_length_le hl] at he
        exact h0 _ e he
    · rw [show ({ s with table0 := s.table0.set (hash0B hasher s x) (some x) } :
          CuckooState).table0 = s.table0.set (hash0B hasher s x) (some x) from rfl,
        getD_set_ne _ _ _ hip] at he
      exact h0 i e he
  · intro i e he
    exact h1 i e he

theorem homed_set1 (s : CuckooState) (y : Nat) (hh : HomedB hasher s) :
    HomedB hasher { s with table1 := s.table1.set (hash1B hasher s y) (some y) } := by
  obtain ⟨h0, h1⟩ := hh
  constructor
  · intro i e he
    exact h0 i e he
  · intro i e he
    by_cases hip : i = hash1B hasher s y
    · subst hip
      rcases Nat.lt_or_ge (hash1B hasher s y) s.table1.length with hl | hl
      · rw [show ({ s with table1 := s.table1.set (hash1B hasher s y) (some y) } :
            CuckooState).table1 = s.table1.set (hash1B hasher s y) (some y) from rfl,
          getD_set_self _ _ _ _ hl] at he
        cases he
        rfl
      · rw [show ({ s with table1 := s.table1.set (hash1B hasher s y) (some y) } :
            CuckooState).table1 = s.table1.set (hash1B hasher s y) (some y) from rfl,
          List.set_eq_of_length_le hl] at he
        exact h1 _ e he
    · rw [show ({ s with table1 := s.table1.set (hash1B hasher s y) (some y) } :
          CuckooState).table1 = s.table1.set (hash1B hasher s y) (some y) from rfl,
        getD_set_ne _ _ _ hip] at he
      exact h1 i e he

theorem melemsB_set0 (s : CuckooState) (p : Nat) (v : Option Nat)
    (h : p < s.table0.length) :
    melemsB { s with table0 := s.table0.set p v }
        + ((s.table0.getD p none).toList : Multiset Nat)
      = (v.toList : Multiset Nat) + melemsB s := by
  show ((s.table0.set p v).filterMap id : Multiset Nat)
      + (s.table1.filterMap id : Multiset Nat) + _ = _
  rw [add_right_comm, filterMap_set_opt _ _ _ h, melemsB, ← add_assoc]

theorem melemsB_set1 (s : CuckooState) (p : Nat) (v : Option Nat)
    (h : p < s.table1.length) :
    melemsB { s with table1 := s.table1.set p v }
        + ((s.table1.getD p none).toList : Multiset Nat)
      = (v.toList : Multiset Nat) + melemsB s := by
  show (s.table0.filterMap id : Multiset Nat)
      + ((s.table1.set p v).filterMap id : Multiset Nat) + _ = _
  rw [add_assoc, filterMap_set_opt _ _ _ h, melemsB]
  abel

theorem sameShapeB_trans {a b c : CuckooState} (h1 : SameShapeB a b)
    (h2 : SameShapeB b c) : SameShapeB a c := by
  obtain ⟨a1, a2, a3, a4, a5, a6, a7, a8⟩ := h1
  obtain ⟨b1, b2, b3, b4, b5, b6, b7, b8⟩ := h2
  exact ⟨b1.trans a1, b2.trans a2, b3.trans a3, b4.trans a4, b5.trans a5,
    b6.trans a6, b7.trans a7, b8.trans a8⟩

theorem addLoopB_spec (k : Nat) : ∀ s x, 0 < s.n → s.table0.length = s.n →
    s.table1.length = s.n → HomedB hasher s →
    SameShapeB s (addLoopB hasher k s x).2 ∧
    HomedB hasher (addLoopB hasher k s x).2 ∧
    melemsB (addLoopB hasher k s x).2
        + ((addLoopB hasher k s x).1.toList : Multiset Nat)
      = x ::ₘ melemsB s := by
  induction k with
  | zero =>
    intro s x hn hl0 hl1 hh
    refine ⟨⟨rfl, rfl, rfl, rfl, rfl, rfl, rfl, rfl⟩, hh, ?_⟩
    simp [addLoopB, ← Multiset.singleton_add, add_comm]
  | succ k ih =>
    intro s x hn hl0 hl1 hh
    have hp0 : hash0B hasher s x < s.table0.length := by
      rw [hl0]; exact Nat.mod_lt _ hn
    cases hq : s.table0.getD (hash0B hasher s x) none with
    | none =>
      have hq2 := hq
      simp only [List.getD, List.get?_eq_getElem?] at hq2
      have heq : addLoopB hasher (k+1) s x =
          (none, { s with table0 := s.table0.set (hash0B hasher s x) (some x) }) := by
        simp [addLoopB, swapB, List.getD, hq2]
      rw [heq]
      refine ⟨⟨rfl, rfl, rfl, rfl, rfl, rfl, by simp, rfl⟩, homed_set0 hasher s x hh, ?_⟩
      have hm := melemsB_set0 s (hash0B hasher s x) (some x) hp0
      rw [hq] at hm
      simpa [← Multiset.singleton_add, add_comm] using hm
    | some y =>
      have hq2 := hq
      simp only [List.getD, List.get?_eq_getElem?] at hq2
      have hp1 : hash1B hasher s y < s.table1.length := by
        rw [hl1]; exact Nat.mod_lt _ hn
      have hmA : melemsB { s with table0 := s.table0.set (hash0B hasher s x) (some x) }
          + ({y} : Multiset Nat) = ({x} : Multiset Nat) + melemsB s := by
        have hm := melemsB_set0 s (hash0B hasher s x) (some x) hp0
        rw [hq] at hm
        simpa using hm
      have hhA : HomedB hasher
          { s with table0 := s.table0.set (hash0B hasher s x) (some x) } :=
        homed_set0 hasher s x hh
      cases hr : s.table1.getD (hash1B hasher s y) none with
      | none =>
        have hr2 := hr
        simp only [List.getD, List.get?_eq_getElem?, hash1B] at hr2
        have heq : addLoopB hasher (k+1) s x =
            (none, { s with
                     table0 := s.table0.set (hash0B hasher s x) (some x)
                     table1 := s.table1.set (hash1B hasher s y) (some y) }) := by
          simp [addLoopB, swapB, List.getD, hash1B, hq2, hr2]
        rw [heq]
        have hmB := melemsB_set1
          { s with table0 := s.table0.set (hash0B hasher s x) (some x) }
          (hash1B hasher s y) (some y) hp1
        rw [show ({ s with table0 := s.table0.set (hash0B hasher s x) (some x) } :
            CuckooState).table1 = s.table1 from rfl, hr] at hmB
        refine ⟨⟨rfl, rfl, rfl, rfl, rfl, rfl, by simp, by simp⟩,
          homed_set1 hasher _ y hhA, ?_⟩
        simp only [Option.toList, Multiset.coe_nil, add_zero] at hmB ⊢
        rw [hmB, Multiset.coe_singleton, add_comm, hmA, Multiset.singleton_add]
      | some z =>
        have hr2 := hr
        simp only [List.getD, List.get?_eq_getElem?, hash1B] at hr2
        have heq : addLoopB hasher (k+1) s x =
            addLoopB hasher k { s with
              table0 := s.table0.set (hash0B hasher s x) (some x)
              table1 := s.table1.set (hash1B hasher s y) (some y) } z := by
          simp [addLoopB, swapB, List.getD, hash1B, hq2, hr2]
        have hmB := melemsB_set1
          { s with table0 := s.table0.set (hash0B hasher s x) (some x) }
          (hash1B hasher s y) (some y) hp1
        rw [show ({ s with table0 := s.table0.set (hash0B hasher s x) (some x) } :
            CuckooState).table1 = s.table1 from rfl, hr] at hmB
        have hIH := ih { s with
            table0 := s.table0.set (hash0B hasher s x) (some x)
            table1 := s.table1.set (hash1B hasher s y) (some y) } z hn
          (by simp [hl0]) (by simp [hl1]) (homed_set1 hasher _ y hhA)
        rw [heq]
        have hSh1 : SameShapeB s { s with
            table0 := s.table0.set (hash0B hasher s x) (some x)
            table1 := s.table1.set (hash1B hasher s y) (some y) } :=
          ⟨rfl, rfl, rfl, rfl, rfl, rfl, by simp, by simp⟩
        refine ⟨sameShapeB_trans hSh1 hIH.1, hIH.2.1, ?_⟩
        rw [hIH.2.2]
        have : melemsB { s with
            table0 := s.table0.set (hash0B hasher s x) (some x)
            table1 := s.table1.set (hash1B hasher s y) (some y) }
            + ({z} : Multiset Nat) = ({y} : Multiset Nat)
            + melemsB { s with table0 := s.table0.set (hash0B hasher s x) (some x) } := by
          simpa using hmB
        calc z ::ₘ melemsB { s with
            table0 := s.table0.set (hash0B hasher s x) (some x)
            table1 := s.table1.set (hash1B hasher s y) (some y) }
            = melemsB { s with
                table0 := s.table0.set (hash0B hasher s x) (some x)
                table1 := s.table1.set (hash1B hasher s y) (some y) }
              + ({z} : Multiset Nat) := by rw [← Multiset.singleton_add]; abel
          _ = ({y} : Multiset Nat)
              + melemsB { s with table0 := s.table0.set (hash0B hasher s x) (some x) } := this
          _ = melemsB { s with table0 := s.table0.set (hash0B hasher s x) (some x) }
              + ({y} : Multiset Nat) := by abel
          _ = ({x} : Multiset Nat) + melemsB s := hmA
          _ = x ::ₘ melemsB s := by rw [Multiset.singleton_add]

theorem mem_filterMap_of_getD {t : List (Option Nat)} {i : Nat} {x : Nat}
    (h : t.getD i none = some x) : x ∈ t.filterMap id := by
  rcases getD_mem_or t i none with hm | hd
  · rw [h] at hm
    exact List.mem_filterMap.mpr ⟨some x, hm, rfl⟩
  · rw [h] at hd
    simp at hd

theorem getD_of_mem_filterMap {t : List (Option Nat)} {x : Nat}
    (h : x ∈ t.filterMap id) : ∃ i, i < t.length ∧ t.getD i none = some x := by
  obtain ⟨o, ho, hox⟩ := List.mem_filterMap.mp h
  obtain ⟨i, hi, hgi⟩ := List.mem_iff_getElem.mp ho
  refine ⟨i, hi, ?_⟩
  rw [List.getD_eq_getElem _ _ hi, hgi]
  exact hox

theorem containsB_iff (s : CuckooState) (x : Nat) (hh : HomedB hasher s) :
    containsB hasher s x = true ↔ x ∈ melemsB s := by
  constructor
  · intro hc
    have hc2 : s.table0.getD (hash0B hasher s x) none = some x ∨
        s.table1.getD (hash1B hasher s x) none = some x := by
      simpa [containsB, List.getD] using hc
    rcases hc2 with h1 | h1
    · exact Multiset.mem_add.mpr (Or.inl (Multiset.mem_coe.mpr
        (mem_filterMap_of_getD h1)))
    · exact Multiset.mem_add.mpr (Or.inr (Multiset.mem_coe.mpr
        (mem_filterMap_of_getD h1)))
  · intro hm
    rcases Multiset.mem_add.mp hm with hm | hm
    · obtain ⟨i, hi, hgi⟩ := getD_of_mem_filterMap (Multiset.mem_coe.mp hm)
      have hhi := hh.1 i x hgi
      subst hhi
      simp only [List.getD, List.get?_eq_getElem?] at hgi
      simp [containsB, List.getD, hgi]
    · obtain ⟨i, hi, hgi⟩ := getD_of_mem_filterMap (Multiset.mem_coe.mp hm)
      have hhi := hh.2 i x hgi
      subst hhi
      simp only [List.getD, List.get?_eq_getElem?] at hgi
      simp [containsB, List.getD, hgi]

theorem getD_replicate_none (m i : Nat) :
    (List.replicate m (none : Option Nat)).getD i none = none := by
  rcases getD_mem_or (List.replicate m (none : Option Nat)) i none with hm | hd
  · exact List.eq_of_mem_replicate hm
  · exact hd

theorem wf_resizeCore (s : CuckooState) (hn : 0 < s.n) :
    WfB hasher (resizeCore s).1 ∧ melemsB (resizeCore s).1 = 0 ∧
    (((resizeCore s).2 : List Nat) : Multiset Nat) = melemsB s := by
  have hmel : melemsB (resizeCore s).1 = 0 := by
    simp [resizeCore, melemsB, List.filterMap_replicate]
  refine ⟨⟨?_, ?_, ?_, ?_, ?_⟩, hmel, ?_⟩
  · show 0 < 2 * s.n
    omega
  · show (List.replicate (2 * s.n) (none : Option Nat)).length = 2 * s.n
    simp
  · show (List.replicate (2 * s.n) (none : Option Nat)).length = 2 * s.n
    simp
  · constructor
    · intro i e he
      rw [show ((resizeCore s).1).table0 = List.replicate (2 * s.n) none from rfl,
        getD_replicate_none] at he
      exact Option.noConfusion he
    · intro i e he
      rw [show ((resizeCore s).1).table1 = List.replicate (2 * s.n) none from rfl,
        getD_replicate_none] at he
      exact Option.noConfusion he
  · rw [hmel]
    exact Multiset.nodup_zero
  · rfl

theorem reinsertWith_spec (f : Nat) (hA : AddSpecHolds hasher f) :
    ∀ (xs : List Nat) s s', WfB hasher s → (melemsB s + (xs : Multiset Nat)).Nodup →
      reinsertWith (addFuel hasher f) xs s = some s' →
      WfB hasher s' ∧ melemsB s' = melemsB s + (xs : Multiset Nat) := by
  intro xs
  induction xs with
  | nil =>
    intro s s' hw _ h
    simp only [reinsertWith, Option.some.injEq] at h
    subst h
    simpa using hw
  | cons a xs ih =>
    intro s s' hw hnd h
    rw [reinsertWith] at h
    cases ha : addFuel hasher f s a with
    | none =>
      rw [ha] at h
      exact Option.noConfusion h
    | some p =>
      rw [ha] at h
      obtain ⟨b, s2⟩ := p
      have hspec := hA s a b s2 hw ha
      have hna : a ∉ melemsB s := by
        intro hmem
        have h1 : (1:Nat) ≤ Multiset.count a (melemsB s) :=
          Multiset.one_le_count_iff_mem.mpr hmem
        have h2 : (1:Nat) ≤ Multiset.count a ((a :: xs : List Nat) : Multiset Nat) := by
          simp
        have h3 := Multiset.nodup_iff_count_le_one.mp hnd a
        rw [Multiset.count_add] at h3
        omega
      have hb : b = true := hspec.2.1.mpr hna
      subst hb
      have hm2 : melemsB s2 = a ::ₘ melemsB s := by
        simpa using hspec.2.2.1
      have hrearr : melemsB s2 + (xs : Multiset Nat)
          = melemsB s + ((a :: xs : List Nat) : Multiset Nat) := by
        rw [hm2, ← Multiset.cons_coe]
        simp only [← Multiset.singleton_add]
        abel
      have hnd2 : (melemsB s2 + (xs : Multiset Nat)).Nodup := by
        rw [hrearr]
        exact hnd
      obtain ⟨hw', hmel'⟩ := ih s2 s' hspec.1 hnd2 h
      exact ⟨hw', by rw [hmel', hrearr]⟩

theorem addFuel_spec : ∀ f, AddSpecHolds hasher f := by
  intro f
  induction f with
  | zero =>
    intro s x b s' _ h
    simp [addFuel] at h
  | succ f ih =>
    intro s x b s' hw h
    obtain ⟨hn, hl0, hl1, hh, hnd⟩ := hw
    by_cases hc : containsB hasher s x = true
    · rw [addFuel, if_pos hc] at h
      simp only [Option.some.injEq, Prod.mk.injEq] at h
      obtain ⟨hb, hs⟩ := h
      subst hb
      subst hs
      have hxm : x ∈ melemsB s := (containsB_iff hasher s x hh).mp hc
      exact ⟨⟨hn, hl0, hl1, hh, hnd⟩, by simp [hxm], by simp, fun _ => rfl⟩
    · have hxm : x ∉ melemsB s := fun hmem =>
        hc ((containsB_iff hasher s x hh).mpr hmem)
      rw [addFuel, if_neg hc] at h
      have hL := addLoopB_spec hasher s.limit s x hn hl0 hl1 hh
      cases hlp : addLoopB hasher s.limit s x with
      | mk r s2 =>
        rw [hlp] at h hL
        obtain ⟨⟨g1, g2, g3, g4, g5, g6, g7, g8⟩, hh2, hmel2⟩ := hL
        cases r with
        | none =>
          simp only [Option.some.injEq, Prod.mk.injEq] at h
          obtain ⟨hb, hs⟩ := h
          subst hb
          subst hs
          have hms2 : melemsB s2 = x ::ₘ melemsB s := by simpa using hmel2
          have hnd2 : (melemsB s2).Nodup := by
            rw [hms2]
            exact Multiset.nodup_cons.mpr ⟨hxm, hnd⟩
          refine ⟨⟨?_, ?_, ?_, hh2, hnd2⟩, by simp [hxm], by simp [hms2], ?_⟩
          · rw [g2]; exact hn
          · rw [g7, hl0, g2]
          · rw [g8, hl1, g2]
          · intro hfalse
            exact Bool.noConfusion hfalse
        | some c =>
          simp only at h
          have hmc : melemsB s2 + ({c} : Multiset Nat) = x ::ₘ melemsB s := by
            simpa using hmel2
          have hndx : (x ::ₘ melemsB s).Nodup := Multiset.nodup_cons.mpr ⟨hxm, hnd⟩
          have hnd2 : (melemsB s2 + ({c} : Multiset Nat)).Nodup := by
            rw [hmc]; exact hndx
          have hnds2 : (melemsB s2).Nodup :=
            Multiset.nodup_of_le (Multiset.le_add_right _ _) hnd2
          have hcnot : c ∉ melemsB s2 := by
            intro hmem
            have h1 : (1:Nat) ≤ Multiset.count c (melemsB s2) :=
              Multiset.one_le_count_iff_mem.mpr hmem
            have h3 := Multiset.nodup_iff_count_le_one.mp hnd2 c
            rw [Multiset.count_add] at h3
            have h4 : Multiset.count c ({c} : Multiset Nat) = 1 :=
              Multiset.count_singleton_self c
            omega
          have hw2 : WfB hasher s2 := by
            refine ⟨by rw [g2]; exact hn, by rw [g7, hl0, g2], by rw [g8, hl1, g2],
              hh2, hnds2⟩
          obtain ⟨hwc, hmc0, hlc⟩ := wf_resizeCore hasher s2 (by rw [g2]; exact hn)
          cases hre : reinsertWith (addFuel hasher f) (resizeCore s2).2 (resizeCore s2).1 with
          | none =>
            rw [hre] at h
            exact Option.noConfusion h
          | some s3 =>
            rw [hre] at h
            simp only at h
            have hnd3 : (melemsB (resizeCore s2).1
                + (((resizeCore s2).2 : List Nat) : Multiset Nat)).Nodup := by
              rw [hmc0, hlc]
              simpa using hnds2
            obtain ⟨hw3, hmel3⟩ := reinsertWith_spec hasher f ih _ _ _ hwc hnd3 hre
            have hmel3' : melemsB s3 = melemsB s2 := by
              rw [hmel3, hmc0, hlc]
              simp
            have hspec := ih s3 c b s' hw3 h
            have hcnot3 : c ∉ melemsB s3 := by
              rw [hmel3']
              exact hcnot
            have hb : b = true := hspec.2.1.mpr hcnot3
            subst hb
            have hmel' : melemsB s' = x ::ₘ melemsB s := by
              have h5 := hspec.2.2.1
              rw [if_pos rfl] at h5
              rw [h5, hmel3', ← hmc, ← Multiset.singleton_add]
              abel
            refine ⟨hspec.1, by simp [hxm], by simp [hmel'], ?_⟩
            intro hfalse
            exact Bool.noConfusion hfalse

theorem sizeB_eq_card (s : CuckooState) :
    sizeB s = Multiset.card (melemsB s) := by
  simp [sizeB, melemsB]

theorem popTryB_spec (f : Nat) : ∀ t s s', WfB hasher s →
    popTryB hasher f t s = some s' →
    WfB hasher s' ∧ Multiset.card (melemsB s') = Multiset.card (melemsB s) + 1 := by
  intro t
  induction t with
  | zero =>
    intro s s' _ h
    simp [popTryB] at h
  | succ t ih =>
    intro s s' hw h
    simp only [popTryB] at h
    have hw1 : WfB hasher { s with pos := s.pos + 1 } := hw
    cases ha : addFuel hasher f { s with pos := s.pos + 1 } (s.stream s.pos) with
    | none =>
      rw [ha] at h
      exact Option.noConfusion h
    | some p =>
      obtain ⟨b, s2⟩ := p
      have hspec := addFuel_spec hasher f _ _ _ _ hw1 ha
      cases b with
      | true =>
        rw [ha] at h
        simp only [Option.some.injEq] at h
        subst h
        refine ⟨hspec.1, ?_⟩
        have h5 := hspec.2.2.1
        rw [if_pos rfl] at h5
        rw [h5]
        simp only [Multiset.card_cons]
        rfl
      | false =>
        rw [ha] at h
        simp only at h
        have hs2 : s2 = { s with pos := s.pos + 1 } := hspec.2.2.2 rfl
        subst hs2
        exact ih { s with pos := s.pos + 1 } s' hspec.1 h

theorem populateB_spec (f : Nat) : ∀ k s s', WfB hasher s →
    populateB hasher f k s = some s' →
    WfB hasher s' ∧ Multiset.card (melemsB s') = Multiset.card (melemsB s) + k := by
  intro k
  induction k with
  | zero =>
    intro s s' hw h
    simp only [populateB, Option.some.injEq] at h
    subst h
    exact ⟨hw, by simp⟩
  | succ k ih =>
    intro s s' hw h
    simp only [populateB] at h
    cases hp : popTryB hasher f f s with
    | none =>
      rw [hp] at h
      exact Option.noConfusion h
    | some s2 =>
      rw [hp] at h
      simp only at h
      obtain ⟨hw2, hc2⟩ := popTryB_spec hasher f f s s2 hw hp
      obtain ⟨hw', hc'⟩ := ih s2 s' hw2 h
      refine ⟨hw', ?_⟩
      rw [hc', hc2]
      omega

theorem homedB_iff (s : CuckooState) :
    homedB hasher s = true ↔ HomedB hasher s := by
  constructor
  · intro h
    rw [homedB, Bool.and_eq_true] at h
    obtain ⟨h0, h1⟩ := h
    constructor
    · intro i e he
      rcases Nat.lt_or_ge i s.table0.length with hi | hi
      · have := List.all_eq_true.mp h0 i (List.mem_range.mpr hi)
        rw [he] at this
        simpa using this
      · rw [List.getD_eq_default _ _ hi] at he
        exact Option.noConfusion he
    · intro i e he
      rcases Nat.lt_or_ge i s.table1.length with hi | hi
      · have := List.all_eq_true.mp h1 i (List.mem_range.mpr hi)
        rw [he] at this
        simpa using this
      · rw [List.getD_eq_default _ _ hi] at he
        exact Option.noConfusion he
  · intro h
    rw [homedB, Bool.and_eq_true]
    constructor
    · refine List.all_eq_true.mpr ?_
      intro i _
      cases hgd : s.table0.getD i none with
      | none => simp
      | some e => simpa using h.1 i e hgd
    · refine List.all_eq_true.mpr ?_
      intro i _
      cases hgd : s.table1.getD i none with
      | none => simp
      | some e => simpa using h.2 i e hgd

theorem WfB_of_check (s : CuckooState) (h : wfCheckB hasher s = true) :
    WfB hasher s := by
  rw [wfCheckB] at h
  simp only [Bool.and_eq_true, decide_eq_true_eq] at h
  exact ⟨h.1.1.1.1, h.1.1.1.2, h.1.1.2, (homedB_iff hasher s).mp h.1.2, h.2⟩

theorem bucketP_le (s : StripedState) (hb : BoundedP s) (ti i : Nat) :
    (bucketP s ti i).length ≤ s.probeSize := by
  rw [bucketP]
  split
  · rcases getD_mem_or s.table0 i [] with hm | hd
    · exact hb.1 _ hm
    · rw [hd]; simp
  · rcases getD_mem_or s.table1 i [] with hm | hd
    · exact hb.2 _ hm
    · rw [hd]; simp

theorem bounded_setBucketP (s : StripedState) (ti i : Nat) (l : List Nat)
    (hb : BoundedP s) (hl : l.length ≤ s.probeSize) :
    BoundedP (setBucketP s ti i l) := by
  rw [setBucketP]
  split
  · constructor
    · intro b hbm
      rcases List.mem_or_eq_of_mem_set hbm with hm | hbl
      · exact hb.1 b hm
      · rw [hbl]; exact hl
    · intro b hbm
      exact hb.2 b hbm
  · constructor
    · intro b hbm
      exact hb.1 b hbm
    · intro b hbm
      rcases List.mem_or_eq_of_mem_set hbm with hm | hbl
      · exact hb.2 b hm
      · rw [hbl]; exact hl

theorem wfP_setBucketP (s : StripedState) (ti i : Nat) (l : List Nat)
    (hw : WfP s) : WfP (setBucketP s ti i l) := by
  rw [setBucketP]
  split
  · exact ⟨hw.1, by simpa using hw.2.1, hw.2.2⟩
  · exact ⟨hw.1, hw.2.1, by simpa using hw.2.2⟩

theorem melemsP_setBucketP (s : StripedState) (ti i : Nat) (l : List Nat)
    (h0 : i < s.table0.length) (h1 : i < s.table1.length) :
    melemsP (setBucketP s ti i l) + ((bucketP s ti i : List Nat) : Multiset Nat)
      = (l : Multiset Nat) + melemsP s := by
  by_cases hti : ti = 0
  · subst hti
    have H := flatten_set_list s.table0 i l h0
    show (((s.table0.set i l).flatten : List Nat) : Multiset Nat)
        + ((s.table1.flatten : List Nat) : Multiset Nat)
        + ((s.table0.getD i []) : Multiset Nat)
        = (l : Multiset Nat) + melemsP s
    rw [add_right_comm, H, melemsP, ← add_assoc]
  · rw [setBucketP, if_neg hti, bucketP, if_neg hti]
    have H := flatten_set_list s.table1 i l h1
    show ((s.table0.flatten : List Nat) : Multiset Nat)
        + (((s.table1.set i l).flatten : List Nat) : Multiset Nat)
        + ((s.table1.getD i []) : Multiset Nat)
        = (l : Multiset Nat) + melemsP s
    rw [add_assoc, H, melemsP]
    abel

theorem sizeP_eq_card (s : StripedState) :
    sizeP s = Multiset.card (melemsP s) := by
  simp [sizeP, melemsP]

theorem hashP_lt (s : StripedState) (x : Nat) (hn : 0 < s.n) :
    hash0P hasher s x < s.n ∧ hash1P hasher s x < s.n :=
  ⟨Nat.mod_lt _ hn, Nat.mod_lt _ hn⟩

theorem addInternalP_spec (s : StripedState) (x : Nat) :
    (ParamsP s → BoundedP s →
      BoundedP (addInternalP hasher s x).2 ∧ ParamsP (addInternalP hasher s x).2) ∧
    (WfP s → WfP (addInternalP hasher s x).2) ∧
    (WfP s → (addInternalP hasher s x).1 = true →
      melemsP (addInternalP hasher s x).2 = x ::ₘ melemsP s) ∧
    ((addInternalP hasher s x).1 = false → (addInternalP hasher s x).2 = s) := by
  by_cases h1 : (bucketP s 0 (hash0P hasher s x)).length < s.threshold
  · have he : addInternalP hasher s x
        = (true, setBucketP s 0 (hash0P hasher s x)
            (bucketP s 0 (hash0P hasher s x) ++ [x])) := by
      simp [addInternalP, h1]
    rw [he]
    refine ⟨?_, ?_, ?_, ?_⟩
    · intro hp hb
      refine ⟨bounded_setBucketP s _ _ _ hb ?_, hp⟩
      rw [List.length_append]
      have := bucketP_le s hb 0 (hash0P hasher s x)
      have h3 : s.threshold ≤ s.probeSize := hp
      simp only [List.length_cons, List.length_nil]
      omega
    · intro hw
      exact wfP_setBucketP s _ _ _ hw
    · intro hw _
      have hlt := hashP_lt hasher s x hw.1
      have H := melemsP_setBucketP s 0 (hash0P hasher s x)
        (bucketP s 0 (hash0P hasher s x) ++ [x])
        (by rw [hw.2.1]; exact hlt.1) (by rw [hw.2.2]; exact hlt.1)
      have H2 : melemsP (setBucketP s 0 (hash0P hasher s x)
            (bucketP s 0 (hash0P hasher s x) ++ [x]))
            + ((bucketP s 0 (hash0P hasher s x) : List Nat) : Multiset Nat)
          = (x ::ₘ melemsP s)
            + ((bucketP s 0 (hash0P hasher s x) : List Nat) : Multiset Nat) := by
        rw [H, coe_append]
        simp only [Multiset.coe_singleton, ← Multiset.singleton_add]
        abel
      exact add_right_cancel H2
    · intro hfalse
      exact Bool.noConfusion hfalse
  · by_cases h2 : (bucketP s 1 (hash1P hasher s x)).length < s.threshold
    · have he : addInternalP hasher s x
          = (true, setBucketP s 1 (hash1P hasher s x)
              (bucketP s 1 (hash1P hasher s x) ++ [x])) := by
        simp [addInternalP, h1, h2]
      rw [he]
      refine ⟨?_, ?_, ?_, ?_⟩
      · intro hp hb
        refine ⟨bounded_setBucketP s _ _ _ hb ?_, hp⟩
        rw [List.length_append]
        have := bucketP_le s hb 1 (hash1P hasher s x)
        have h3 : s.threshold ≤ s.probeSize := hp
        simp only [List.length_cons, List.length_nil]
        omega
      · intro hw
        exact wfP_setBucketP s _ _ _ hw
      · intro hw _
        have hlt := hashP_lt hasher s x hw.1
        have H := melemsP_setBucketP s 1 (hash1P hasher s x)
          (bucketP s 1 (hash1P hasher s x) ++ [x])
          (by rw [hw.2.1]; exact hlt.2) (by rw [hw.2.2]; exact hlt.2)
        have H2 : melemsP (setBucketP s 1 (hash1P hasher s x)
              (bucketP s 1 (hash1P hasher s x) ++ [x]))
              + ((bucketP s 1 (hash1P hasher s x) : List Nat) : Multiset Nat)
            = (x ::ₘ melemsP s)
              + ((bucketP s 1 (hash1P hasher s x) : List Nat) : Multiset Nat) := by
          rw [H, coe_append]
          simp only [Multiset.coe_singleton, ← Multiset.singleton_add]
          abel
        exact add_right_cancel H2
      · intro hfalse
        exact Bool.noConfusion hfalse
    · have he : addInternalP hasher s x = (false, s) := by
        simp [addInternalP, h1, h2]
      rw [he]
      exact ⟨fun hp hb => ⟨hb, hp⟩, fun hw => hw,
        fun _ htrue => Bool.noConfusion htrue, fun _ => rfl⟩

theorem popTryP_spec : ∀ t s s', WfP s → popTryP hasher t s = some s' →
    WfP s' ∧ Multiset.card (melemsP s') = Multiset.card (melemsP s) + 1 := by
  intro t
  induction t with
  | zero =>
    intro s s' _ h
    simp [popTryP] at h
  | succ t ih =>
    intro s s' hw h
    simp only [popTryP] at h
    have hw1 : WfP { s with pos := s.pos + 1 } := hw
    have hspec := addInternalP_spec hasher { s with pos := s.pos + 1 } (s.stream s.pos)
    cases ha : addInternalP hasher { s with pos := s.pos + 1 } (s.stream s.pos) with
    | mk b s2 =>
      rw [ha] at h hspec
      cases b with
      | true =>
        simp only [Option.some.injEq] at h
        subst h
        refine ⟨hspec.2.1 hw1, ?_⟩
        rw [hspec.2.2.1 hw1 rfl]
        simp only [Multiset.card_cons]
        rfl
      | false =>
        simp only at h
        exact ih { s with pos := s.pos + 1 } s' hw1 h

theorem populateP_spec (t : Nat) : ∀ k s s', WfP s →
    populateP hasher t k s = some s' →
    WfP s' ∧ sizeP s' = sizeP s + k := by
  intro k
  induction k with
  | zero =>
    intro s s' hw h
    simp only [populateP, Option.some.injEq] at h
    subst h
    exact ⟨hw, by simp⟩
  | succ k ih =>
    intro s s' hw h
    simp only [populateP] at h
    cases hp : popTryP hasher t s with
    | none =>
      rw [hp] at h
      exact Option.noConfusion h
    | some s2 =>
      rw [hp] at h
      simp only at h
      obtain ⟨hw2, hc2⟩ := popTryP_spec hasher t s s2 hw hp
      obtain ⟨hw', hc'⟩ := ih s2 s' hw2 h
      refine ⟨hw', ?_⟩
      have e1 : sizeP s2 = sizeP s + 1 := by
        rw [sizeP_eq_card, sizeP_eq_card, hc2]
      rw [hc', e1]
      omega

theorem reinsertIntP_inv : ∀ (xs : List Nat) (s : StripedState),
    ParamsP s → BoundedP s →
    ParamsP (reinsertIntP hasher xs s) ∧ BoundedP (reinsertIntP hasher xs s) := by
  intro xs
  induction xs with
  | nil =>
    intro s hp hb
    exact ⟨hp, hb⟩
  | cons a xs ih =>
    intro s hp hb
    rw [reinsertIntP]
    obtain ⟨hb2, hp2⟩ := (addInternalP_spec hasher s a).1 hp hb
    exact ih _ hp2 hb2

theorem resizeP_inv (s : StripedState) (hp : ParamsP s) :
    ParamsP (resizeP hasher s) ∧ BoundedP (resizeP hasher s) := by
  rw [resizeP]
  refine reinsertIntP_inv hasher _ _ hp ?_
  constructor
  · intro b hbm
    have hbm2 : b ∈ List.replicate (2 * s.n) ([] : List Nat) := hbm
    rw [List.eq_of_mem_replicate hbm2]
    simp
  · intro b hbm
    have hbm2 : b ∈ List.replicate (2 * s.n) ([] : List Nat) := hbm
    rw [List.eq_of_mem_replicate hbm2]
    simp

theorem setBucketP_fields (s : StripedState) (ti i : Nat) (l : List Nat) :
    (setBucketP s ti i l).probeSize = s.probeSize ∧
    (setBucketP s ti i l).threshold = s.threshold ∧
    (setBucketP s ti i l).n = s.n ∧
    (setBucketP s ti i l).table0.length = s.table0.length ∧
    (setBucketP s ti i l).table1.length = s.table1.length := by
  rw [setBucketP]
  split
  · exact ⟨rfl, rfl, rfl, by simp, rfl⟩
  · exact ⟨rfl, rfl, rfl, rfl, by simp⟩

theorem paramsP_setBucketP (s : StripedState) (ti i : Nat) (l : List Nat)
    (hp : ParamsP s) : ParamsP (setBucketP s ti i l) := by
  have hf := setBucketP_fields s ti i l
  rw [ParamsP, hf.1, hf.2.1]
  exact hp

theorem erase_length_le (l : List Nat) (a : Nat) :
    (l.erase a).length ≤ l.length :=
  List.Sublist.length_le (List.erase_sublist a l)

theorem relocateGo_inv : ∀ (r : Nat) (i hi : Nat) (s : StripedState),
    ParamsP s → BoundedP s →
    ParamsP (relocateGo hasher r i hi s).2 ∧
    BoundedP (relocateGo hasher r i hi s).2 := by
  intro r
  induction r with
  | zero =>
    intro i hi s hp hb
    exact ⟨hp, hb⟩
  | succ r ih =>
    intro i hi s hp hb
    by_cases hth : (bucketP s i hi).length < s.threshold
    · have he : relocateGo hasher (r+1) i hi s = (true, s) := by
        simp [relocateGo, hth, -List.headD_eq_head?_getD]
      rw [he]
      exact ⟨hp, hb⟩
    · by_cases hy : (bucketP s i hi).headD 0 ∈ bucketP s i hi
      · by_cases hj1 : (bucketP s (1-i) (if i = 0
            then hash1P hasher s ((bucketP s i hi).headD 0)
            else hash0P hasher s ((bucketP s i hi).headD 0))).length < s.threshold
        · have he : relocateGo hasher (r+1) i hi s =
              (true, setBucketP (setBucketP s i hi
                  ((bucketP s i hi).erase ((bucketP s i hi).headD 0)))
                (1-i) (if i = 0
                  then hash1P hasher s ((bucketP s i hi).headD 0)
                  else hash0P hasher s ((bucketP s i hi).headD 0))
                (bucketP s (1-i) (if i = 0
                  then hash1P hasher s ((bucketP s i hi).headD 0)
                  else hash0P hasher s ((bucketP s i hi).headD 0)) ++
                  [(bucketP s i hi).headD 0])) := by
            simp [relocateGo, hth, hy, hj1, -List.headD_eq_head?_getD]
          rw [he]
          have hb1 : BoundedP (setBucketP s i hi
              ((bucketP s i hi).erase ((bucketP s i hi).headD 0))) :=
            bounded_setBucketP s _ _ _ hb
              (le_trans (erase_length_le _ _) (bucketP_le s hb i hi))
          have hp1 := paramsP_setBucketP s i hi
            ((bucketP s i hi).erase ((bucketP s i hi).headD 0)) hp
          have hf := setBucketP_fields s i hi
            ((bucketP s i hi).erase ((bucketP s i hi).headD 0))
          refine ⟨paramsP_setBucketP _ _ _ _ hp1, bounded_setBucketP _ _ _ _ hb1 ?_⟩
          rw [hf.1, List.length_append]
          have h3 : s.threshold ≤ s.probeSize := hp
          simp only [List.length_cons, List.length_nil]
          omega
        · by_cases hj2 : (bucketP s (1-i) (if i = 0
              then hash1P hasher s ((bucketP s i hi).headD 0)
              else hash0P hasher s ((bucketP s i hi).headD 0))).length < s.probeSize
          · have he : relocateGo hasher (r+1) i hi s =
                relocateGo hasher r (1-i) (if i = 0
                  then hash1P hasher s ((bucketP s i hi).headD 0)
                  else hash0P hasher s ((bucketP s i hi).headD 0))
                (setBucketP (setBucketP s i hi
                    ((bucketP s i hi).erase ((bucketP s i hi).headD 0)))
                  (1-i) (if i = 0
                    then hash1P hasher s ((bucketP s i hi).headD 0)
                    else hash0P hasher s ((bucketP s i hi).headD 0))
                  (bucketP s (1-i) (if i = 0
                    then hash1P hasher s ((bucketP s i hi).headD 0)
                    else hash0P hasher s ((bucketP s i hi).headD 0)) ++
                    [(bucketP s i hi).headD 0])) := by
              simp [relocateGo, hth, hy, hj1, hj2, -List.headD_eq_head?_getD]
            rw [he]
            have hb1 : BoundedP (setBucketP s i hi
                ((bucketP s i hi).erase ((bucketP s i hi).headD 0))) :=
              bounded_setBucketP s _ _ _ hb
                (le_trans (erase_length_le _ _) (bucketP_le s hb i hi))
            have hp1 := paramsP_setBucketP s i hi
              ((bucketP s i hi).erase ((bucketP s i hi).headD 0)) hp
            have hf := setBucketP_fields s i hi
              ((bucketP s i hi).erase ((bucketP s i hi).headD 0))
            refine ih _ _ _ (paramsP_setBucketP _ _ _ _ hp1)
              (bounded_setBucketP _ _ _ _ hb1 ?_)
            rw [hf.1, List.length_append]
            simp only [List.length_cons, List.length_nil]
            omega
          · have he : relocateGo hasher (r+1) i hi s =
                (false, setBucketP s i hi
                  ((bucketP s i hi).erase ((bucketP s i hi).headD 0) ++
                    [(bucketP s i hi).headD 0])) := by
              simp [relocateGo, hth, hy, hj1, hj2, -List.headD_eq_head?_getD]
            rw [he]
            refine ⟨paramsP_setBucketP _ _ _ _ hp, bounded_setBucketP _ _ _ _ hb ?_⟩
            rw [List.length_append, List.length_erase_of_mem hy]
            have h4 : 1 ≤ (bucketP s i hi).length := by
              rcases Nat.eq_zero_or_pos (bucketP s i hi).length with h5 | h5
              · rw [List.length_eq_zero] at h5
                rw [h5] at hy
                simp at hy
              · exact h5
            have h6 := bucketP_le s hb i hi
            simp only [List.length_cons, List.length_nil]
            omega
      · by_cases hth2 : s.threshold ≤ (bucketP s i hi).length
        · have he : relocateGo hasher (r+1) i hi s = relocateGo hasher r i hi s := by
            simp [relocateGo, hth, hy, hth2, -List.headD_eq_head?_getD]
          rw [he]
          exact ih i hi s hp hb
        · have he : relocateGo hasher (r+1) i hi s = (true, s) := by
            simp [relocateGo, hth, hy, hth2, -List.headD_eq_head?_getD]
          rw [he]
          exact ⟨hp, hb⟩

theorem addLockedP_inv (s : StripedState) (x : Nat) (hp : ParamsP s)
    (hb : BoundedP s) :
    ParamsP (addLockedP hasher s x).2 ∧ BoundedP (addLockedP hasher s x).2 := by
  by_cases hpr : presentP hasher s x = true
  · have he : addLockedP hasher s x = (.presentAlready, s) := by
      simp [addLockedP, hpr]
    rw [he]
    exact ⟨hp, hb⟩
  · have h3 : s.threshold ≤ s.probeSize := hp
    by_cases h1 : (bucketP s 0 (hash0P hasher s x)).length < s.threshold
    · have he : addLockedP hasher s x = (.placed, setBucketP s 0 (hash0P hasher s x)
          (bucketP s 0 (hash0P hasher s x) ++ [x])) := by
        simp [addLockedP, hpr, h1]
      rw [he]
      refine ⟨paramsP_setBucketP _ _ _ _ hp, bounded_setBucketP _ _ _ _ hb ?_⟩
      have := bucketP_le s hb 0 (hash0P hasher s x)
      rw [List.length_append]
      simp only [List.length_cons, List.length_nil]
      omega
    · by_cases h2 : (bucketP s 1 (hash1P hasher s x)).length < s.threshold
      · have he : addLockedP hasher s x = (.placed, setBucketP s 1 (hash1P hasher s x)
            (bucketP s 1 (hash1P hasher s x) ++ [x])) := by
          simp [addLockedP, hpr, h1, h2]
        rw [he]
        refine ⟨paramsP_setBucketP _ _ _ _ hp, bounded_setBucketP _ _ _ _ hb ?_⟩
        have := bucketP_le s hb 1 (hash1P hasher s x)
        rw [List.length_append]
        simp only [List.length_cons, List.length_nil]
        omega
      · by_cases h4 : (bucketP s 0 (hash0P hasher s x)).length < s.probeSize
        · have he : addLockedP hasher s x = (.needsReloc 0 (hash0P hasher s x),
              setBucketP s 0 (hash0P hasher s x)
                (bucketP s 0 (hash0P hasher s x) ++ [x])) := by
            simp [addLockedP, hpr, h1, h2, h4]
          rw [he]
          refine ⟨paramsP_setBucketP _ _ _ _ hp, bounded_setBucketP _ _ _ _ hb ?_⟩
          rw [List.length_append]
          simp only [List.length_cons, List.length_nil]
          omega
        · by_cases h5 : (bucketP s 1 (hash1P hasher s x)).length < s.probeSize
          · have he : addLockedP hasher s x = (.needsReloc 1 (hash1P hasher s x),
                setBucketP s 1 (hash1P hasher s x)
                  (bucketP s 1 (hash1P hasher s x) ++ [x])) := by
              simp [addLockedP, hpr, h1, h2, h4, h5]
            rw [he]
            refine ⟨paramsP_setBucketP _ _ _ _ hp, bounded_setBucketP _ _ _ _ hb ?_⟩
            rw [List.length_append]
            simp only [List.length_cons, List.length_nil]
            omega
          · have he : addLockedP hasher s x = (.mustResize, s) := by
              simp [addLockedP, hpr, h1, h2, h4, h5]
            rw [he]
            exact ⟨hp, hb⟩

theorem addPFuel_inv : ∀ (f : Nat) (s : StripedState) (x : Nat) (b : Bool)
    (s' : StripedState), ParamsP s → BoundedP s →
    addPFuel hasher f s x = some (b, s') → ParamsP s' ∧ BoundedP s' := by
  intro f
  induction f with
  | zero =>
    intro s x b s' _ _ h
    simp [addPFuel] at h
  | succ f ih =>
    intro s x b s' hp hb h
    rw [addPFuel] at h
    have hL := addLockedP_inv hasher s x hp hb
    cases hAL : addLockedP hasher s x with
    | mk o s1 =>
      rw [hAL] at h hL
      cases o with
      | presentAlready =>
        simp only [Option.some.injEq, Prod.mk.injEq] at h
        rw [← h.2]
        exact hL
      | placed =>
        simp only [Option.some.injEq, Prod.mk.injEq] at h
        rw [← h.2]
        exact hL
      | mustResize =>
        simp only at h
        have hR := resizeP_inv hasher s1 hL.1
        exact ih _ x b s' hR.1 hR.2 h
      | needsReloc i hh =>
        simp only at h
        have hRel : ParamsP (relocateP hasher s1 i hh).2 ∧
            BoundedP (relocateP hasher s1 i hh).2 :=
          relocateGo_inv hasher s1.limit i hh s1 hL.1 hL.2
        by_cases hr1 : (relocateP hasher s1 i hh).1 = true
        · rw [if_pos hr1] at h
          simp only [Option.some.injEq, Prod.mk.injEq] at h
          rw [← h.2]
          exact hRel
        · rw [if_neg hr1] at h
          have hR2 := resizeP_inv hasher (relocateP hasher s1 i hh).2 hRel.1
          exact ih _ x b s' hR2.1 hR2.2 h

theorem removeP_inv (s : StripedState) (x : Nat) (hp : ParamsP s)
    (hb : BoundedP s) :
    ParamsP (removeP hasher s x).2 ∧ BoundedP (removeP hasher s x).2 := by
  by_cases h0 : x ∈ bucketP s 0 (hash0P hasher s x)
  · have he : removeP hasher s x = (true, setBucketP s 0 (hash0P hasher s x)
        ((bucketP s 0 (hash0P hasher s x)).erase x)) := by
      simp [removeP, h0]
    rw [he]
    exact ⟨paramsP_setBucketP _ _ _ _ hp, bounded_setBucketP _ _ _ _ hb
      (le_trans (erase_length_le _ _) (bucketP_le s hb 0 _))⟩
  · by_cases h1 : x ∈ bucketP s 1 (hash1P hasher s x)
    · have he : removeP hasher s x = (true, setBucketP s 1 (hash1P hasher s x)
          ((bucketP s 1 (hash1P hasher s x)).erase x)) := by
        simp [removeP, h0, h1]
      rw [he]
      exact ⟨paramsP_setBucketP _ _ _ _ hp, bounded_setBucketP _ _ _ _ hb
        (le_trans (erase_length_le _ _) (bucketP_le s hb 1 _))⟩
    · have he : removeP hasher s x = (false, s) := by
        simp [removeP, h0, h1]
      rw [he]
      exact ⟨hp, hb⟩

theorem applyOp_inv (f : Nat) (s : StripedState) (op : SOp) (s' : StripedState)
    (hp : ParamsP s) (hb : BoundedP s) (h : applyOp hasher f s op = some s') :
    ParamsP s' ∧ BoundedP s' := by
  cases op with
  | addOp x =>
    simp only [applyOp, Option.map_eq_some'] at h
    obtain ⟨p, hp2, hps⟩ := h
    obtain ⟨b, s2⟩ := p
    rw [← hps]
    exact addPFuel_inv hasher f s x b s2 hp hb hp2
  | removeOp x =>
    simp only [applyOp, Option.some.injEq] at h
    rw [← h]
    exact removeP_inv hasher s x hp hb
  | containsOp x =>
    simp only [applyOp, Option.some.injEq] at h
    rw [← h]
    exact ⟨hp, hb⟩
  | relocOp i hh =>
    simp only [applyOp, Option.some.injEq] at h
    rw [← h]
    exact relocateGo_inv hasher s.limit i hh s hp hb
  | resizeOp =>
    simp only [applyOp, Option.some.injEq] at h
    rw [← h]
    exact resizeP_inv hasher s hp

theorem runOps_inv : ∀ (ops : List SOp) (f : Nat) (s s' : StripedState),
    ParamsP s → BoundedP s → runOps hasher f ops s = some s' →
    ParamsP s' ∧ BoundedP s' := by
  intro ops
  induction ops with
  | nil =>
    intro f s s' hp hb h
    simp only [runOps, Option.some.injEq] at h
    rw [← h]
    exact ⟨hp, hb⟩
  | cons op ops ih =>
    intro f s s' hp hb h
    rw [runOps] at h
    cases ha : applyOp hasher f s op with
    | none =>
      rw [ha] at h
      exact Option.noConfusion h
    | some s2 =>
      rw [ha] at h
      simp only at h
      obtain ⟨hp2, hb2⟩ := applyOp_inv hasher f s op s2 hp hb ha
      exact ih f s2 s' hp2 hb2 h

/-- C1: at the reachable striped2.cpp state `exAddS2` (tables `[1]`, `[0]`,
`LIMIT = 4`), `add 2` is called with 2 absent; the displacement loop exhausts
`LIMIT`, `resize` runs, and the retry `add(x)` finds 2 already placed and
returns `false`, while the evicted carry element 0 is dropped from the set —
contradicting the claim that the return value reflects whether this call
newly inserted `x`. -/
theorem addS2_returns_false_and_drops_carry :
    containsB idHash exAddS2 2 = false ∧
    Multiset.count 0 (melemsB exAddS2) = 1 ∧
    (addS2Fuel idHash 5 exAddS2 2).map Prod.fst = some false ∧
    (addS2Fuel idHash 5 exAddS2 2).map
      (fun p => Multiset.count 0 (melemsB p.2)) = some 0 ∧
    (addS2Fuel idHash 5 exAddS2 2).map
      (fun p => Multiset.count 2 (melemsB p.2)) = some 1 := by
  decide

/-- C3: at the probe-set state `exResizeP` (capacity 1, five stored elements
that still collide under the fresh seeds), `resize` reinserts through
`add_internal` discarding its result: element 8 is present before the resize
and absent afterwards, so the stored set is not preserved. -/
theorem resizeP_drops_element :
    sizeP exResizeP = 5 ∧ (8 : Nat) ∈ melemsP exResizeP ∧
    sizeP (resizeP idHash exResizeP) = 4 ∧
    (8 : Nat) ∉ melemsP (resizeP idHash exResizeP) := by
  decide

/-- C5 counterexample: for the element 1 in state `exAcq` we have
`hash1 = 0 < 1 = hash0`, where the canonical order would lock `L1[0]` first,
but `acquire` of stripedCuckooHash.cpp locks `L0[1]` first. -/
theorem acquireOrderP_not_canonical :
    hash1P idHash exAcq 1 < hash0P idHash exAcq 1 ∧
    acquireOrderP idHash exAcq 1 ≠
      canonicalOrder (hash0P idHash exAcq 1) (hash1P idHash exAcq 1) := by
  decide

/-- C5 (amended): `acquire` of striped2.cpp follows the canonical order of
the spec, while `acquire` of stripedCuckooHash.cpp always locks
`L0[hash0(x)]` then `L1[hash1(x)]` regardless of the index order. -/
theorem acquire_order_spec (hasher : Nat → Nat) (s : CuckooState)
    (t : StripedState) (x y : Nat) :
    acquireOrderS2 hasher s x
      = canonicalOrder (hash0B hasher s x) (hash1B hasher s x) ∧
    acquireOrderP hasher t y
      = [(0, hash0P hasher t y), (1, hash1P hasher t y)] :=
  ⟨rfl, rfl⟩

/-- C8 counterexample: tm_cuckoo.cpp's `hash0` does not XOR the seed: with
the identity hash, `x = 0`, seed `s0 = 1` and `N = 2` it yields 0 while the
spec formula `(hash(x) XOR s0) mod N` yields 1. -/
theorem tmHash0_ignores_seed :
    tmHash0 idHash 2 0 ≠ specHash0 idHash 1 2 0 := by
  decide

/-- C8 (amended): the hash pairs are pure functions of the state's seeds and
capacity with indices in `[0, N)`; the cuckoo/striped variants compute
`(hash(x) XOR seed) mod N` for both indices, while tm_cuckoo.cpp computes
`hash(x) mod N` for `h0` (no seed) and `(hash(x) XOR seed1) mod N` for `h1`. -/
theorem hash_pair_spec (hasher : Nat → Nat) (s : CuckooState)
    (t : StripedState) (sd1 sz x : Nat) (hn : 0 < s.n) (hm : 0 < t.n)
    (hz : 0 < sz) :
    hash0B hasher s x = (hasher x ^^^ s.s0) % s.n ∧
    hash1B hasher s x = (hasher x ^^^ s.s1) % s.n ∧
    hash0B hasher s x < s.n ∧ hash1B hasher s x < s.n ∧
    hash0P hasher t x = (hasher x ^^^ t.s0) % t.n ∧
    hash1P hasher t x = (hasher x ^^^ t.s1) % t.n ∧
    hash0P hasher t x < t.n ∧ hash1P hasher t x < t.n ∧
    tmHash0 hasher sz x = hasher x % sz ∧
    tmHash1 hasher sd1 sz x = (hasher x ^^^ sd1) % sz ∧
    tmHash0 hasher sz x < sz ∧ tmHash1 hasher sd1 sz x < sz :=
  ⟨rfl, rfl, Nat.mod_lt _ hn, Nat.mod_lt _ hn, rfl, rfl,
   Nat.mod_lt _ hm, Nat.mod_lt _ hm, rfl, rfl,
   Nat.mod_lt _ hz, Nat.mod_lt _ hz⟩

/-- C8 witness: the amended hash theorem applied at a concrete state. -/
theorem hash_pair_witness :
    (0 : Nat) < exAcq.n ∧ tmHash0 idHash 2 5 = 5 % 2 ∧
    hash0P idHash exAcq 1 < exAcq.n :=
  ⟨by decide, (hash_pair_spec idHash exAddS2 exAcq 3 2 5 (by decide) (by decide)
    (by decide)).2.2.2.2.2.2.2.2.1, (hash_pair_spec idHash exAddS2 exAcq 3 2 1
    (by decide) (by decide) (by decide)).2.2.2.2.2.2.1⟩

/-- C9 counterexample: `populate` of stripedCuckooHash.cpp inserts through
`add_internal`, which has no duplicate check: with an rng that always draws
the key 5, `populate 2` stores the element 5 twice (so the two inserted
elements are not distinct), although `size()` still reports 2. -/
theorem populateP_inserts_duplicate :
    (populateP idHash 3 2 exPopP).map
      (fun s => Multiset.count 5 (melemsP s)) = some 2 ∧
    (populateP idHash 3 2 exPopP).map sizeP = some 2 := by
  decide

/-- C2: in both the baseline and the probe-set variant, `remove x` returns
true iff `x` was present, removes it from `T0[h0(x)]` in preference to
`T1[h1(x)]`, and on an absent element leaves the state (hence `size()`)
unchanged. -/
theorem remove_iff_present_spec (hasher : Nat → Nat) (s : CuckooState)
    (t : StripedState) (x y : Nat) :
    ((removeB hasher s x).1 = containsB hasher s x) ∧
    (s.table0.getD (hash0B hasher s x) none = some x →
      (removeB hasher s x).2
        = { s with table0 := s.table0.set (hash0B hasher s x) none }) ∧
    (s.table0.getD (hash0B hasher s x) none ≠ some x →
      s.table1.getD (hash1B hasher s x) none = some x →
      (removeB hasher s x).2
        = { s with table1 := s.table1.set (hash1B hasher s x) none }) ∧
    (containsB hasher s x = false →
      (removeB hasher s x).2 = s ∧ sizeB (removeB hasher s x).2 = sizeB s) ∧
    ((removeP hasher t y).1 = presentP hasher t y) ∧
    (y ∈ bucketP t 0 (hash0P hasher t y) →
      (removeP hasher t y).2 = setBucketP t 0 (hash0P hasher t y)
        ((bucketP t 0 (hash0P hasher t y)).erase y)) ∧
    (y ∉ bucketP t 0 (hash0P hasher t y) →
      y ∈ bucketP t 1 (hash1P hasher t y) →
      (removeP hasher t y).2 = setBucketP t 1 (hash1P hasher t y)
        ((bucketP t 1 (hash1P hasher t y)).erase y)) ∧
    (presentP hasher t y = false →
      (removeP hasher t y).2 = t ∧ sizeP (removeP hasher t y).2 = sizeP t) := by
  refine ⟨?_, ?_, ?_, ?_, ?_, ?_, ?_, ?_⟩
  · by_cases h0 : s.table0.getD (hash0B hasher s x) none = some x
    · simp [removeB, containsB, h0, -List.getD_eq_getElem?_getD]
    · by_cases h1 : s.table1.getD (hash1B hasher s x) none = some x
      · simp [removeB, containsB, h0, h1, -List.getD_eq_getElem?_getD]
      · simp [removeB, containsB, h0, h1, -List.getD_eq_getElem?_getD]
  · intro h0
    simp [removeB, h0, -List.getD_eq_getElem?_getD]
  · intro h0 h1
    simp [removeB, h0, h1, -List.getD_eq_getElem?_getD]
  · intro hc
    have h0 : s.table0.getD (hash0B hasher s x) none ≠ some x := by
      intro h
      simp [containsB, h, -List.getD_eq_getElem?_getD] at hc
    have h1 : s.table1.getD (hash1B hasher s x) none ≠ some x := by
      intro h
      simp [containsB, h, -List.getD_eq_getElem?_getD] at hc
    simp [removeB, h0, h1, -List.getD_eq_getElem?_getD]
  · by_cases h0 : y ∈ bucketP t 0 (hash0P hasher t y)
    · simp [removeP, presentP, h0]
    · by_cases h1 : y ∈ bucketP t 1 (hash1P hasher t y)
      · simp [removeP, presentP, h0, h1]
      · simp [removeP, presentP, h0, h1]
  · intro h0
    simp [removeP, h0]
  · intro h0 h1
    simp [removeP, h0, h1]
  · intro hp
    have h0 : y ∉ bucketP t 0 (hash0P hasher t y) := by
      intro h
      simp [presentP, h] at hp
    have h1 : y ∉ bucketP t 1 (hash1P hasher t y) := by
      intro h
      simp [presentP, h] at hp
    simp [removeP, h0, h1]

/-- C2 witness: `remove` at concrete states with the element present in
`T0`, and with the element absent. -/
theorem remove_witness :
    exRemB.table0.getD (hash0B idHash exRemB 5) none = some 5 ∧
    (removeB idHash exRemB 5).2
      = { exRemB with table0 := exRemB.table0.set (hash0B idHash exRemB 5) none } ∧
    presentP idHash exRemP 9 = false ∧
    (removeP idHash exRemP 9).2 = exRemP :=
  ⟨by decide,
   (remove_iff_present_spec idHash exRemB exRemP 5 9).2.1 (by decide),
   by decide,
   ((remove_iff_present_spec idHash exRemB exRemP 5 9).2.2.2.2.2.2.2
     (by decide)).1⟩

/-- C10: in both variants, `remove x` changes at most the two slots
`T0[h0(x)]` and `T1[h1(x)]`: every other slot and the capacity and seeds are
unchanged, whatever the return value. -/
theorem remove_frame_spec (hasher : Nat → Nat) (s : CuckooState)
    (t : StripedState) (x y j : Nat) :
    (removeB hasher s x).2.n = s.n ∧ (removeB hasher s x).2.s0 = s.s0 ∧
    (removeB hasher s x).2.s1 = s.s1 ∧
    (j ≠ hash0B hasher s x →
      (removeB hasher s x).2.table0.getD j none = s.table0.getD j none) ∧
    (j ≠ hash1B hasher s x →
      (removeB hasher s x).2.table1.getD j none = s.table1.getD j none) ∧
    (removeP hasher t y).2.n = t.n ∧ (removeP hasher t y).2.s0 = t.s0 ∧
    (removeP hasher t y).2.s1 = t.s1 ∧
    (j ≠ hash0P hasher t y →
      (removeP hasher t y).2.table0.getD j [] = t.table0.getD j []) ∧
    (j ≠ hash1P hasher t y →
      (removeP hasher t y).2.table1.getD j [] = t.table1.getD j []) := by
  have hB : (removeB hasher s x).2.n = s.n ∧ (removeB hasher s x).2.s0 = s.s0 ∧
      (removeB hasher s x).2.s1 = s.s1 ∧
      (j ≠ hash0B hasher s x →
        (removeB hasher s x).2.table0.getD j none = s.table0.getD j none) ∧
      (j ≠ hash1B hasher s x →
        (removeB hasher s x).2.table1.getD j none = s.table1.getD j none) := by
    by_cases h0 : s.table0.getD (hash0B hasher s x) none = some x
    · have he : removeB hasher s x
          = (true, { s with table0 := s.table0.set (hash0B hasher s x) none }) := by
        simp [removeB, h0, -List.getD_eq_getElem?_getD]
      rw [he]
      exact ⟨rfl, rfl, rfl, fun hj => getD_set_ne _ _ _ hj, fun _ => rfl⟩
    · by_cases h1 : s.table1.getD (hash1B hasher s x) none = some x
      · have he : removeB hasher s x
            = (true, { s with table1 := s.table1.set (hash1B hasher s x) none }) := by
          simp [removeB, h0, h1, -List.getD_eq_getElem?_getD]
        rw [he]
        exact ⟨rfl, rfl, rfl, fun _ => rfl, fun hj => getD_set_ne _ _ _ hj⟩
      · have he : removeB hasher s x = (false, s) := by
          simp [removeB, h0, h1, -List.getD_eq_getElem?_getD]
        rw [he]
        exact ⟨rfl, rfl, rfl, fun _ => rfl, fun _ => rfl⟩
  have hP : (removeP hasher t y).2.n = t.n ∧ (removeP hasher t y).2.s0 = t.s0 ∧
      (removeP hasher t y).2.s1 = t.s1 ∧
      (j ≠ hash0P hasher t y →
        (removeP hasher t y).2.table0.getD j [] = t.table0.getD j []) ∧
      (j ≠ hash1P hasher t y →
        (removeP hasher t y).2.table1.getD j [] = t.table1.getD j []) := by
    by_cases h0 : y ∈ bucketP t 0 (hash0P hasher t y)
    · have he : removeP hasher t y = (true, setBucketP t 0 (hash0P hasher t y)
          ((bucketP t 0 (hash0P hasher t y)).erase y)) := by
        simp [removeP, h0]
      rw [he]
      exact ⟨rfl, rfl, rfl, fun hj => getD_set_ne _ _ _ hj, fun _ => rfl⟩
    · by_cases h1 : y ∈ bucketP t 1 (hash1P hasher t y)
      · have he : removeP hasher t y = (true, setBucketP t 1 (hash1P hasher t y)
            ((bucketP t 1 (hash1P hasher t y)).erase y)) := by
          simp [removeP, h0, h1]
        rw [he]
        exact ⟨rfl, rfl, rfl, fun _ => rfl, fun hj => getD_set_ne _ _ _ hj⟩
      · have he : removeP hasher t y = (false, t) := by
          simp [removeP, h0, h1]
        rw [he]
        exact ⟨rfl, rfl, rfl, fun _ => rfl, fun _ => rfl⟩
  exact ⟨hB.1, hB.2.1, hB.2.2.1, hB.2.2.2.1, hB.2.2.2.2,
    hP.1, hP.2.1, hP.2.2.1, hP.2.2.2.1, hP.2.2.2.2⟩

/-- C10 witness: the frame theorem applied at concrete states and a concrete
other slot index. -/
theorem remove_frame_witness :
    (1 : Nat) ≠ hash0B idHash exRemB 5 ∧
    (removeB idHash exRemB 5).2.table0.getD 1 none
      = exRemB.table0.getD 1 none ∧
    (removeP idHash exRemP 7).2.n = exRemP.n :=
  ⟨by decide,
   (remove_frame_spec idHash exRemB exRemP 5 7 1).2.2.2.1 (by decide),
   (remove_frame_spec idHash exRemB exRemP 5 7 1).2.2.2.2.2.1⟩

/-- C4: for every probe-set state whose buckets respect the bound and with
`THRESHOLD ≤ PROBE_SIZE`, after any terminating sequence of add / remove /
contains / relocate / resize operations, every bucket of both tables holds at
most `PROBE_SIZE` elements. -/
theorem probe_bound_invariant (hasher : Nat → Nat) (f : Nat) (ops : List SOp)
    (s s' : StripedState) (hp : s.threshold ≤ s.probeSize) (hb : BoundedP s)
    (h : runOps hasher f ops s = some s') : BoundedP s' :=
  (runOps_inv hasher ops f s s' hp hb h).2

/-- C4 witness: the bound invariant along a concrete operation sequence. -/
theorem probe_bound_witness :
    exPopP.threshold ≤ exPopP.probeSize ∧ BoundedP exPopP ∧
    (runOps idHash 3 opsW exPopP).elim False BoundedP := by
  refine ⟨by decide, by decide, ?_⟩
  obtain ⟨s2, hs⟩ : ∃ s2, runOps idHash 3 opsW exPopP = some s2 := ⟨_, rfl⟩
  rw [hs]
  exact probe_bound_invariant idHash 3 opsW exPopP s2 (by decide) (by decide) hs

/-- C7: when `x` is absent, the locked section of the probe-set `add`
follows exactly the spec's cascade: append to `T0[h0]` under threshold, else
append to `T1[h1]` under threshold, else append to `T0[h0]` under
`PROBE_SIZE` recording `(0, h0)` for relocation, else append to `T1[h1]`
under `PROBE_SIZE` recording `(1, h1)`, else mark mustResize without
appending. -/
theorem addP_cascade_spec (hasher : Nat → Nat) (s : StripedState) (x : Nat)
    (habs : presentP hasher s x = false) :
    ((bucketP s 0 (hash0P hasher s x)).length < s.threshold →
      addLockedP hasher s x = (.placed, setBucketP s 0 (hash0P hasher s x)
        (bucketP s 0 (hash0P hasher s x) ++ [x]))) ∧
    (¬ (bucketP s 0 (hash0P hasher s x)).length < s.threshold →
      (bucketP s 1 (hash1P hasher s x)).length < s.threshold →
      addLockedP hasher s x = (.placed, setBucketP s 1 (hash1P hasher s x)
        (bucketP s 1 (hash1P hasher s x) ++ [x]))) ∧
    (¬ (bucketP s 0 (hash0P hasher s x)).length < s.threshold →
      ¬ (bucketP s 1 (hash1P hasher s x)).length < s.threshold →
      (bucketP s 0 (hash0P hasher s x)).length < s.probeSize →
      addLockedP hasher s x = (.needsReloc 0 (hash0P hasher s x),
        setBucketP s 0 (hash0P hasher s x)
          (bucketP s 0 (hash0P hasher s x) ++ [x]))) ∧
    (¬ (bucketP s 0 (hash0P hasher s x)).length < s.threshold →
      ¬ (bucketP s 1 (hash1P hasher s x)).length < s.threshold →
      ¬ (bucketP s 0 (hash0P hasher s x)).length < s.probeSize →
      (bucketP s 1 (hash1P hasher s x)).length < s.probeSize →
      addLockedP hasher s x = (.needsReloc 1 (hash1P hasher s x),
        setBucketP s 1 (hash1P hasher s x)
          (bucketP s 1 (hash1P hasher s x) ++ [x]))) ∧
    (¬ (bucketP s 0 (hash0P hasher s x)).length < s.threshold →
      ¬ (bucketP s 1 (hash1P hasher s x)).length < s.threshold →
      ¬ (bucketP s 0 (hash0P hasher s x)).length < s.probeSize →
      ¬ (bucketP s 1 (hash1P hasher s x)).length < s.probeSize →
      addLockedP hasher s x = (.mustResize, s)) := by
  refine ⟨?_, ?_, ?_, ?_, ?_⟩ <;> intros <;> simp [addLockedP, habs, *]

/-- C7 witness: the cascade at a concrete empty state (first branch). -/
theorem addP_cascade_witness :
    presentP idHash exPopP 7 = false ∧
    (bucketP exPopP 0 (hash0P idHash exPopP 7)).length < exPopP.threshold ∧
    addLockedP idHash exPopP 7 = (.placed, setBucketP exPopP 0
      (hash0P idHash exPopP 7) (bucketP exPopP 0 (hash0P idHash exPopP 7) ++ [7])) :=
  ⟨by decide, by decide,
   (addP_cascade_spec idHash exPopP 7 (by decide)).1 (by decide)⟩

theorem headD_cons_tail {l : List Nat} (h : l ≠ []) :
    l.headD 0 :: l.tail = l := by
  cases l with
  | nil => exact absurd rfl h
  | cons a t => rfl

theorem erase_headD {l : List Nat} (h : l ≠ []) :
    l.erase (l.headD 0) = l.tail := by
  cases l with
  | nil => exact absurd rfl h
  | cons a t => simp

theorem headD_mem {l : List Nat} (h : l ≠ []) : l.headD 0 ∈ l := by
  rw [← headD_cons_tail h]
  exact List.mem_cons_self _ _

/-- C6: in a proceeding relocation round the element handled is the oldest
(front) element `y` of the over-threshold source bucket; when the destination
bucket has room `y` is appended to its back (success, or chain continuation),
and when the destination holds `PROBE_SIZE` elements `y` is restored to the
source bucket, the round reports failure, and the stored multiset of the
table is unchanged. -/
theorem relocate_round_spec (hasher : Nat → Nat) (s : StripedState)
    (r i hi y hj : Nat) (jSet : List Nat)
    (ht1 : 1 ≤ s.threshold) (htp : s.threshold ≤ s.probeSize)
    (hw : WfP s) (hhi : hi < s.n)
    (hsrc : s.threshold ≤ (bucketP s i hi).length)
    (hy : y = (bucketP s i hi).headD 0)
    (hhj : hj = if i = 0 then hash1P hasher s y else hash0P hasher s y)
    (hjS : jSet = bucketP s (1-i) hj) :
    y :: (bucketP s i hi).tail = bucketP s i hi ∧
    (jSet.length < s.threshold →
      relocateGo hasher (r+1) i hi s
        = (true, setBucketP (setBucketP s i hi (bucketP s i hi).tail)
            (1-i) hj (jSet ++ [y]))) ∧
    (s.threshold ≤ jSet.length → jSet.length < s.probeSize →
      relocateGo hasher (r+1) i hi s
        = relocateGo hasher r (1-i) hj
            (setBucketP (setBucketP s i hi (bucketP s i hi).tail)
              (1-i) hj (jSet ++ [y]))) ∧
    (jSet.length = s.probeSize →
      relocateGo hasher (r+1) i hi s
        = (false, setBucketP s i hi ((bucketP s i hi).tail ++ [y])) ∧
      melemsP (setBucketP s i hi ((bucketP s i hi).tail ++ [y]))
        = melemsP s) := by
  subst hy
  subst hhj
  subst hjS
  have hne : bucketP s i hi ≠ [] := by
    intro h0
    rw [h0] at hsrc
    simp at hsrc
    omega
  have hnth : ¬ (bucketP s i hi).length < s.threshold := Nat.not_lt.mpr hsrc
  have hmem : (bucketP s i hi).headD 0 ∈ bucketP s i hi := headD_mem hne
  have herase : (bucketP s i hi).erase ((bucketP s i hi).headD 0)
      = (bucketP s i hi).tail := erase_headD hne
  refine ⟨headD_cons_tail hne, ?_, ?_, ?_⟩
  · intro hj1
    have he : relocateGo hasher (r+1) i hi s
        = (true, setBucketP (setBucketP s i hi
            ((bucketP s i hi).erase ((bucketP s i hi).headD 0)))
            (1-i) (if i = 0 then hash1P hasher s ((bucketP s i hi).headD 0)
              else hash0P hasher s ((bucketP s i hi).headD 0))
            (bucketP s (1-i) (if i = 0
              then hash1P hasher s ((bucketP s i hi).headD 0)
              else hash0P hasher s ((bucketP s i hi).headD 0)) ++
              [(bucketP s i hi).headD 0])) := by
      simp [relocateGo, hnth, hmem, hj1, -List.headD_eq_head?_getD]
    rw [he, herase]
  · intro hj1 hj2
    have hnj1 : ¬ (bucketP s (1-i) (if i = 0
        then hash1P hasher s ((bucketP s i hi).headD 0)
        else hash0P hasher s ((bucketP s i hi).headD 0))).length
          < s.threshold := Nat.not_lt.mpr hj1
    have he : relocateGo hasher (r+1) i hi s
        = relocateGo hasher r (1-i)
            (if i = 0 then hash1P hasher s ((bucketP s i hi).headD 0)
              else hash0P hasher s ((bucketP s i hi).headD 0))
            (setBucketP (setBucketP s i hi
              ((bucketP s i hi).erase ((bucketP s i hi).headD 0)))
              (1-i) (if i = 0 then hash1P hasher s ((bucketP s i hi).headD 0)
                else hash0P hasher s ((bucketP s i hi).headD 0))
              (bucketP s (1-i) (if i = 0
                then hash1P hasher s ((bucketP s i hi).headD 0)
                else hash0P hasher s ((bucketP s i hi).headD 0)) ++
                [(bucketP s i hi).headD 0])) := by
      simp [relocateGo, hnth, hmem, hnj1, hj2, -List.headD_eq_head?_getD]
    rw [he, herase]
  · intro hj1
    have hnj1 : ¬ (bucketP s (1-i) (if i = 0
        then hash1P hasher s ((bucketP s i hi).headD 0)
        else hash0P hasher s ((bucketP s i hi).headD 0))).length
          < s.threshold := by
      rw [hj1]
      exact Nat.not_lt.mpr htp
    have hnj2 : ¬ (bucketP s (1-i) (if i = 0
        then hash1P hasher s ((bucketP s i hi).headD 0)
        else hash0P hasher s ((bucketP s i hi).headD 0))).length
          < s.probeSize := by
      rw [hj1]
      exact Nat.lt_irrefl _
    have he : relocateGo hasher (r+1) i hi s
        = (false, setBucketP s i hi
            ((bucketP s i hi).erase ((bucketP s i hi).headD 0) ++
              [(bucketP s i hi).headD 0])) := by
      simp [relocateGo, hnth, hmem, hnj1, hnj2, -List.headD_eq_head?_getD]
    constructor
    · rw [he, herase]
    · have hmel := melemsP_setBucketP s i hi
        ((bucketP s i hi).tail ++ [(bucketP s i hi).headD 0])
        (by rw [hw.2.1]; exact hhi) (by rw [hw.2.2]; exact hhi)
      have hperm : (((bucketP s i hi).tail ++ [(bucketP s i hi).headD 0] :
          List Nat) : Multiset Nat)
          = ((bucketP s i hi : List Nat) : Multiset Nat) := by
        conv_rhs => rw [← headD_cons_tail hne]
        rw [coe_append]
        simp only [Multiset.coe_singleton, ← Multiset.cons_coe,
          ← Multiset.singleton_add]
        abel
      rw [hperm] at hmel
      have hmel2 : melemsP (setBucketP s i hi
          ((bucketP s i hi).tail ++ [(bucketP s i hi).headD 0]))
          + ((bucketP s i hi : List Nat) : Multiset Nat)
          = melemsP s + ((bucketP s i hi : List Nat) : Multiset Nat) := by
        rw [hmel]
        exact add_comm _ _
      exact add_right_cancel hmel2

/-- C6 witness: the failure branch at a concrete state whose destination
bucket is full. -/
theorem relocate_round_witness :
    (1 : Nat) ≤ exReloc.threshold ∧
    exReloc.threshold ≤ (bucketP exReloc 0 0).length ∧
    (bucketP exReloc 1 (hash1P idHash exReloc 7)).length = exReloc.probeSize ∧
    relocateGo idHash 6 0 0 exReloc
      = (false, setBucketP exReloc 0 0 ((bucketP exReloc 0 0).tail ++ [7])) ∧
    melemsP (setBucketP exReloc 0 0 ((bucketP exReloc 0 0).tail ++ [7]))
      = melemsP exReloc := by
  refine ⟨by decide, by decide, by decide, ?_, ?_⟩
  · exact ((relocate_round_spec idHash exReloc 5 0 0 7 0 [3, 4] (by decide)
      (by decide) (by decide) (by decide) (by decide) (by decide) (by decide)
      (by decide)).2.2.2 (by decide)).1
  · exact ((relocate_round_spec idHash exReloc 5 0 0 7 0 [3, 4] (by decide)
      (by decide) (by decide) (by decide) (by decide) (by decide) (by decide)
      (by decide)).2.2.2 (by decide)).2

/-- C9 (amended): in cuckooHash.cpp, `populate n` on a well-formed empty set
retries draws until `add` accepts, so the inserted elements are pairwise
distinct and `size()` returns exactly `n`; in stripedCuckooHash.cpp,
`populate` inserts through `add_internal` with no duplicate check, so only
the weaker guarantee holds that each accepted draw adds exactly one stored
element and `size()` grows by exactly `n`. -/
theorem populate_size_spec (hasher : Nat → Nat) (f k t kp : Nat)
    (s s' : CuckooState) (ts ts' : StripedState) :
    (WfB hasher s → melemsB s = 0 → populateB hasher f k s = some s' →
      sizeB s' = k ∧ (melemsB s').Nodup) ∧
    (WfP ts → populateP hasher t kp ts = some ts' →
      sizeP ts' = sizeP ts + kp) := by
  constructor
  · intro hw hm h
    obtain ⟨hw', hc⟩ := populateB_spec hasher f k s s' hw h
    constructor
    · rw [sizeB_eq_card, hc, hm]
      simp
    · exact hw'.2.2.2.2
  · intro hw h
    exact (populateP_spec hasher t kp ts ts' hw h).2

/-- C9 witness: `populate 2` on concrete empty states (baseline with rng
0, 1, 2, …; probe-set with constant rng). -/
theorem populate_size_witness :
    wfCheckB idHash exPopB = true ∧ melemsB exPopB = 0 ∧
    (populateB idHash 5 2 exPopB).elim False
      (fun s2 => sizeB s2 = 2 ∧ (melemsB s2).Nodup) ∧
    WfP exPopP ∧
    (populateP idHash 3 2 exPopP).elim False
      (fun t2 => sizeP t2 = sizeP exPopP + 2) := by
  refine ⟨by decide, by decide, ?_, by decide, ?_⟩
  · obtain ⟨s2, hs⟩ : ∃ s2, populateB idHash 5 2 exPopB = some s2 := ⟨_, rfl⟩
    rw [hs]
    exact (populate_size_spec idHash 5 2 3 2 exPopB s2 exPopP exPopP).1
      (WfB_of_check idHash exPopB (by decide)) (by decide) hs
  · obtain ⟨t2, ht⟩ : ∃ t2, populateP idHash 3 2 exPopP = some t2 := ⟨_, rfl⟩
    rw [ht]
    exact (populate_size_spec idHash 5 2 3 2 exPopB exPopB exPopP t2).2
      (by decide) ht
